import Mathlib

/-!
Verification of the render-engine repository (layer compositor, video
assembler and template selection engine).

Modelling conventions, used throughout:

* JavaScript strings are modelled as their character sequences
  (`Str := List Char`); `split(' ')`, `slice`, `trimEnd`, `startsWith`
  are given their list semantics.
* `ctx.measureText` returns an environment-dependent pixel width; it is
  modelled as an abstract function `measure : Str → α` into a linear
  order, since the wrapping code only ever compares widths.
* JavaScript numbers appearing in arithmetic (durations, offsets,
  opacities, weights) are modelled as rationals `ℚ`.
* The mutable canvas context is modelled by explicit state passing; a
  JavaScript exception is modelled as an `Option`-valued error component
  carried alongside the state.
-/

namespace RenderEngine

/-- JS strings as character sequences. -/
abbrev Str := List Char

/-- `text.split(' ')`: split on every single space character; consecutive
separators produce empty words and the empty string yields `[[]]`,
matching JavaScript `String.prototype.split`. -/
def splitSpace : Str → List Str
  | [] => [[]]
  | c :: cs =>
      match splitSpace cs with
      | [] => [[c]]
      | w :: ws => if c = ' ' then [] :: w :: ws else (c :: w) :: ws

/-- `s.trimEnd()`: drop trailing whitespace. -/
def jsTrimEnd (s : Str) : Str :=
  (s.reverse.dropWhile Char.isWhitespace).reverse

theorem length_dropWhile_le (p : Char → Bool) (l : Str) :
    (l.dropWhile p).length ≤ l.length := by
  induction l with
  | nil => simp
  | cons c cs ih =>
      by_cases h : p c
      · simp [List.dropWhile, h]; omega
      · simp [List.dropWhile, h]

theorem length_jsTrimEnd_le (s : Str) : (jsTrimEnd s).length ≤ s.length := by
  unfold jsTrimEnd
  calc (s.reverse.dropWhile Char.isWhitespace).reverse.length
      = (s.reverse.dropWhile Char.isWhitespace).length := by
        exact List.length_reverse _
    _ ≤ s.reverse.length := length_dropWhile_le _ _
    _ = s.length := List.length_reverse _

theorem length_trimEnd_dropLast_lt (s : Str) (h : 0 < s.length) :
    (jsTrimEnd s.dropLast).length < s.length := by
  have h1 : (jsTrimEnd s.dropLast).length ≤ s.dropLast.length :=
    length_jsTrimEnd_le _
  have h2 : s.dropLast.length = s.length - 1 := List.length_dropLast s
  omega

/-- A wrapped line, as produced by `wrapText` in `src/utils/text.ts`:
the line's text and its measured width. -/
structure WrappedLine (α : Type) where
  text : Str
  width : α
deriving DecidableEq, Repr

/-- The candidate line `currentLine ? currentLine + ' ' + word : word`
of `src/utils/text.ts` line 19 (empty string is JavaScript-falsy). -/
def testLine (currentLine word : Str) : Str :=
  if currentLine = [] then word else currentLine ++ [' '] ++ word

/-- The word-accumulation loop of `wrapText` (`src/utils/text.ts`,
lines 18–34): greedily extend `currentLine` with the next word while the
measured test line stays within `maxWidth`; commit the current line when
the test line would overflow and the current line is non-empty
(JavaScript truthiness of the string `currentLine`). -/
def wrapLoop {α : Type} [LinearOrder α] (measure : Str → α) (maxWidth : α) :
    List Str → Str → List (WrappedLine α)
  | [], currentLine =>
      if currentLine = [] then []
      else [⟨currentLine, measure currentLine⟩]
  | word :: words, currentLine =>
      if maxWidth < measure (testLine currentLine word) ∧ currentLine ≠ [] then
        ⟨currentLine, measure currentLine⟩ ::
          wrapLoop measure maxWidth words word
      else
        wrapLoop measure maxWidth words (testLine currentLine word)

/-- The ellipsis appended on truncation: the three ASCII dots `'...'`
of `src/utils/text.ts` line 43. -/
def ELLIPSIS : Str := ['.', '.', '.']

/-- Body of the truncation loop of `wrapText` (`src/utils/text.ts`,
lines 43–45), structurally recursive on a fuel counter: each iteration
drops at least one character, so fuel equal to the initial length never
runs out before the loop's own exit condition (`ellipsisTrim_eq` below
proves the loop equation). -/
def ellipsisTrimGo {α : Type} [LinearOrder α] (measure : Str → α)
    (maxWidth : α) : ℕ → Str → Str
  | 0, t => t
  | fuel + 1, t =>
      if maxWidth < measure (t ++ ELLIPSIS) ∧ 0 < t.length then
        ellipsisTrimGo measure maxWidth fuel (jsTrimEnd t.dropLast)
      else t

/-- The truncation loop of `wrapText` (`src/utils/text.ts`, lines 43–45):
repeatedly drop the last character and trim trailing whitespace while
`text + '...'` still overflows `maxWidth` and the text is non-empty. -/
def ellipsisTrim {α : Type} [LinearOrder α] (measure : Str → α)
    (maxWidth : α) (t : Str) : Str :=
  ellipsisTrimGo measure maxWidth t.length t

theorem ellipsisTrimGo_succ {α : Type} [LinearOrder α] (measure : Str → α)
    (maxWidth : α) :
    ∀ (fuel : ℕ) (t : Str), t.length ≤ fuel →
      ellipsisTrimGo measure maxWidth fuel t =
        ellipsisTrimGo measure maxWidth (fuel + 1) t := by
  intro fuel
  induction fuel with
  | zero =>
      intro t ht
      have h0 : t = [] := List.length_eq_zero.mp (by omega)
      subst h0
      simp [ellipsisTrimGo]
  | succ fuel ih =>
      intro t ht
      show ellipsisTrimGo measure maxWidth (fuel + 1) t =
        ellipsisTrimGo measure maxWidth (fuel + 2) t
      simp only [ellipsisTrimGo]
      split
      · rename_i hcond
        exact ih _ (by
          have := length_trimEnd_dropLast_lt t hcond.2
          omega)
      · rfl

theorem ellipsisTrimGo_fuel {α : Type} [LinearOrder α] (measure : Str → α)
    (maxWidth : α) (fuel : ℕ) (t : Str) (h : t.length ≤ fuel) :
    ellipsisTrimGo measure maxWidth fuel t =
      ellipsisTrim measure maxWidth t := by
  unfold ellipsisTrim
  obtain ⟨k, rfl⟩ : ∃ k, fuel = t.length + k := ⟨fuel - t.length, by omega⟩
  clear h
  induction k with
  | zero => rfl
  | succ k ih =>
      show ellipsisTrimGo measure maxWidth (t.length + k + 1) t = _
      rw [← ellipsisTrimGo_succ measure maxWidth (t.length + k) t (by omega),
        ih]

/-- The loop equation of the truncation loop: `ellipsisTrim` satisfies
exactly the `while` condition and body of `src/utils/text.ts` lines
43–45. -/
theorem ellipsisTrim_eq {α : Type} [LinearOrder α] (measure : Str → α)
    (maxWidth : α) (t : Str) :
    ellipsisTrim measure maxWidth t =
      if maxWidth < measure (t ++ ELLIPSIS) ∧ 0 < t.length then
        ellipsisTrim measure maxWidth (jsTrimEnd t.dropLast)
      else t := by
  split
  · rename_i hcond
    show ellipsisTrimGo measure maxWidth t.length t = _
    obtain ⟨L, hL⟩ : ∃ L, t.length = L + 1 := ⟨t.length - 1, by omega⟩
    rw [hL]
    simp only [ellipsisTrimGo, if_pos hcond]
    exact ellipsisTrimGo_fuel measure maxWidth L _ (by
      have := length_trimEnd_dropLast_lt t hcond.2
      omega)
  · rename_i hcond
    show ellipsisTrimGo measure maxWidth t.length t = t
    cases hL : t.length with
    | zero => rfl
    | succ L => simp only [ellipsisTrimGo, if_neg hcond]

/-- The untruncated greedy wrap: `wrapText`'s line list before the
`maxLines` truncation step (`src/utils/text.ts` lines 14–34). -/
def wrapLines {α : Type} [LinearOrder α] (measure : Str → α) (text : Str)
    (maxWidth : α) : List (WrappedLine α) :=
  wrapLoop measure maxWidth (splitSpace text) []

/-- `wrapText(ctx, text, maxWidth, maxLines?)` from `src/utils/text.ts`:
greedy word wrap, then (when `maxLines` is provided, non-zero — JavaScript
truthiness — and exceeded) truncation of the line list with an
ellipsis-rewritten final line. -/
def wrapText {α : Type} [LinearOrder α] (measure : Str → α) (text : Str)
    (maxWidth : α) (maxLines : Option ℕ) : List (WrappedLine α) :=
  let lines := wrapLines measure text maxWidth
  match maxLines with
  | none => lines
  | some k =>
      if k ≠ 0 ∧ k < lines.length then
        let truncated := lines.take k
        let lastText := (truncated.getD (k - 1) ⟨[], measure []⟩).text
        let t := ellipsisTrim measure maxWidth lastText
        truncated.set (k - 1) ⟨t ++ ELLIPSIS, measure (t ++ ELLIPSIS)⟩
      else lines

/-- `applyTextTransform` from `src/utils/text.ts`. -/
def applyTextTransform (transform : Option String) (text : Str) : Str :=
  match transform with
  | some "uppercase" => text.map Char.toUpper
  | some "lowercase" => text.map Char.toLower
  | _ => text

/-- Integer character-count width, the concrete measure used by witness
instantiations of the abstract `measure` parameter. -/
def intLen (s : Str) : ℤ := s.length

theorem intLen_mono (a b : Str) :
    intLen a ≤ intLen (a ++ b) ∧ intLen b ≤ intLen (a ++ b) := by
  unfold intLen
  constructor <;> · simp [List.length_append]

/-- Loop invariant of `wrapLoop`: with every pending word drawn from `W`
and a current line that is empty, within budget, or itself a word of `W`,
every emitted line records its own measured width and is within budget or
a single word of `W`. -/
theorem wrapLoop_mem {α : Type} [LinearOrder α] (measure : Str → α)
    (mw : α) (W : List Str) :
    ∀ (ws : List Str) (c : Str), (∀ w ∈ ws, w ∈ W) →
      (c = [] ∨ measure c ≤ mw ∨ c ∈ W) →
      ∀ l ∈ wrapLoop measure mw ws c,
        l.width = measure l.text ∧ (measure l.text ≤ mw ∨ l.text ∈ W) := by
  intro ws
  induction ws with
  | nil =>
      intro c _ hc l hl
      simp only [wrapLoop] at hl
      split at hl
      · simp at hl
      · rename_i hne
        rw [List.mem_singleton] at hl
        subst hl
        refine ⟨rfl, ?_⟩
        rcases hc with h | h | h
        · exact absurd h hne
        · exact Or.inl h
        · exact Or.inr h
  | cons w ws ih =>
      intro c hws hc l hl
      simp only [wrapLoop] at hl
      split at hl
      · rename_i hcond
        rcases List.mem_cons.mp hl with h | h
        · subst h
          refine ⟨rfl, ?_⟩
          rcases hc with h | h | h
          · exact absurd h hcond.2
          · exact Or.inl h
          · exact Or.inr h
        · exact ih w (fun u hu => hws u (List.mem_cons_of_mem _ hu))
            (Or.inr (Or.inr (hws w (List.mem_cons_self _ _)))) l h
      · rename_i hcond
        rw [not_and_or] at hcond
        by_cases hc0 : c = []
        · subst hc0
          have htl : testLine [] w = w := by simp [testLine]
          rw [htl] at hl
          exact ih w (fun u hu => hws u (List.mem_cons_of_mem _ hu))
            (Or.inr (Or.inr (hws w (List.mem_cons_self _ _)))) l hl
        · have hle : measure (testLine c w) ≤ mw := by
            rcases hcond with h | h
            · exact not_lt.mp h
            · exact absurd hc0 (by simpa using h)
          exact ih (testLine c w)
            (fun u hu => hws u (List.mem_cons_of_mem _ hu))
            (Or.inr (Or.inl hle)) l hl

/-- Once an overflowing non-empty word is the current line, the loop
commits it unchanged as its own line (append-monotone measure). -/
theorem wrapLoop_overwide_stay {α : Type} [LinearOrder α]
    (measure : Str → α) (mw : α)
    (hmono : ∀ a b : Str,
      measure a ≤ measure (a ++ b) ∧ measure b ≤ measure (a ++ b))
    (w : Str) (hw : w ≠ []) (hover : mw < measure w) :
    ∀ ws, (⟨w, measure w⟩ : WrappedLine α) ∈ wrapLoop measure mw ws w := by
  intro ws
  induction ws with
  | nil => simp [wrapLoop, hw]
  | cons w2 ws ih =>
      have htest : mw < measure (testLine w w2) := by
        have h1 : measure w ≤ measure (w ++ [' '] ++ w2) := by
          have := (hmono w ([' '] ++ w2)).1
          simpa [List.append_assoc] using this
        simp only [testLine, if_neg hw]
        exact lt_of_lt_of_le hover h1
      simp only [wrapLoop, if_pos (And.intro htest hw)]
      exact List.mem_cons_self _ _

/-- A non-empty input word wider than `maxWidth` is committed alone as
its own line by the greedy loop, whatever the current line was
(append-monotone measure). -/
theorem wrapLoop_overwide_alone {α : Type} [LinearOrder α]
    (measure : Str → α) (mw : α)
    (hmono : ∀ a b : Str,
      measure a ≤ measure (a ++ b) ∧ measure b ≤ measure (a ++ b))
    (w : Str) (hw : w ≠ []) (hover : mw < measure w) :
    ∀ (ws : List Str) (c : Str), w ∈ ws →
      (⟨w, measure w⟩ : WrappedLine α) ∈ wrapLoop measure mw ws c := by
  intro ws
  induction ws with
  | nil => intro c h; simp at h
  | cons w1 ws ih =>
      intro c hmem
      rcases List.mem_cons.mp hmem with h | h
      · subst h
        by_cases hc : c = []
        · subst hc
          simp only [wrapLoop]
          rw [if_neg (by simp)]
          have htl : testLine [] w = w := by simp [testLine]
          rw [htl]
          exact wrapLoop_overwide_stay measure mw hmono w hw hover ws
        · have htest : mw < measure (testLine c w) := by
            simp only [testLine, if_neg hc]
            exact lt_of_lt_of_le hover (hmono (c ++ [' ']) w).2
          simp only [wrapLoop, if_pos (And.intro htest hc)]
          exact List.mem_cons_of_mem _
            (wrapLoop_overwide_stay measure mw hmono w hw hover ws)
      · simp only [wrapLoop]
        split
        · exact List.mem_cons_of_mem _ (ih _ h)
        · exact ih _ h

/-- Postcondition of the truncation loop: it stops with a text that fits
together with the ellipsis, or with the empty text. -/
theorem ellipsisTrim_spec {α : Type} [LinearOrder α] (measure : Str → α)
    (mw : α) (t : Str) :
    measure (ellipsisTrim measure mw t ++ ELLIPSIS) ≤ mw ∨
      ellipsisTrim measure mw t = [] := by
  suffices h : ∀ (n : ℕ) (t : Str), t.length = n →
      measure (ellipsisTrim measure mw t ++ ELLIPSIS) ≤ mw ∨
        ellipsisTrim measure mw t = [] from h t.length t rfl
  intro n
  induction n using Nat.strong_induction_on with
  | _ n ih =>
    intro t hn
    rw [ellipsisTrim_eq]
    split
    · rename_i hcond
      exact ih _ (hn ▸ length_trimEnd_dropLast_lt t hcond.2) _ rfl
    · rename_i hcond
      rw [not_and_or] at hcond
      rcases hcond with h | h
      · exact Or.inl (not_lt.mp h)
      · right
        have h0 : t.length = 0 := by omega
        exact List.length_eq_zero.mp h0

/-- When even the bare ellipsis overflows, the truncation loop erases the
whole text (append-monotone measure). -/
theorem ellipsisTrim_of_ellipsis_overflow {α : Type} [LinearOrder α]
    (measure : Str → α) (mw : α)
    (hmono : ∀ a b : Str,
      measure a ≤ measure (a ++ b) ∧ measure b ≤ measure (a ++ b))
    (hE : mw < measure ELLIPSIS) (t : Str) :
    ellipsisTrim measure mw t = [] := by
  suffices h : ∀ (n : ℕ) (t : Str), t.length = n →
      ellipsisTrim measure mw t = [] from h t.length t rfl
  intro n
  induction n using Nat.strong_induction_on with
  | _ n ih =>
    intro t hn
    rw [ellipsisTrim_eq]
    split
    · rename_i hcond
      exact ih _ (hn ▸ length_trimEnd_dropLast_lt t hcond.2) _ rfl
    · rename_i hcond
      rw [not_and_or] at hcond
      rcases hcond with h | h
      · exact absurd (lt_of_lt_of_le hE (hmono t ELLIPSIS).2) h
      · have h0 : t.length = 0 := by omega
        exact List.length_eq_zero.mp h0

/-- C1 (amended): for every input text, positive `maxWidth` and optional
`maxLines`, every line returned by `wrapText` records its own measured
width and either measures at most `maxWidth`, or is a single input word
(the necessarily-overflowing case), or is the bare `'...'` ellipsis line
that truncation degenerates to when even the ellipsis overflows;
moreover, for an append-monotone measure, a non-empty input word wider
than `maxWidth` appears alone, unbroken, as its own line of the
untruncated wrap. -/
theorem wrapText_width_bound {α : Type} [LinearOrder α] (measure : Str → α)
    (text : Str) (maxWidth : α) (maxLines : Option ℕ)
    (hmono : ∀ a b : Str,
      measure a ≤ measure (a ++ b) ∧ measure b ≤ measure (a ++ b)) :
    (∀ l ∈ wrapText measure text maxWidth maxLines,
        l.width = measure l.text ∧
        (measure l.text ≤ maxWidth ∨ l.text ∈ splitSpace text ∨
          l.text = ELLIPSIS)) ∧
    (∀ w ∈ splitSpace text, w ≠ [] → maxWidth < measure w →
        (⟨w, measure w⟩ : WrappedLine α) ∈
          wrapText measure text maxWidth none) := by
  have hbase : ∀ l ∈ wrapLines measure text maxWidth,
      l.width = measure l.text ∧
        (measure l.text ≤ maxWidth ∨ l.text ∈ splitSpace text) :=
    wrapLoop_mem measure maxWidth (splitSpace text) (splitSpace text) []
      (fun _ h => h) (Or.inl rfl)
  constructor
  · intro l hl
    unfold wrapText at hl
    cases maxLines with
    | none =>
        exact ⟨(hbase l hl).1, (hbase l hl).2.imp_right Or.inl⟩
    | some k =>
        simp only at hl
        split at hl
        · rcases List.mem_or_eq_of_mem_set hl with hmem | heq
          · have hmem' : l ∈ wrapLines measure text maxWidth :=
              List.mem_of_mem_take hmem
            exact ⟨(hbase l hmem').1, (hbase l hmem').2.imp_right Or.inl⟩
          · subst heq
            refine ⟨rfl, ?_⟩
            rcases ellipsisTrim_spec measure maxWidth
                (((wrapLines measure text maxWidth).take k).getD (k - 1)
                  ⟨[], measure []⟩).text with h | h
            · exact Or.inl h
            · right; right; rw [h]; rfl
        · exact ⟨(hbase l hl).1, (hbase l hl).2.imp_right Or.inl⟩
  · intro w hwmem hw hover
    show _ ∈ wrapLines measure text maxWidth
    exact wrapLoop_overwide_alone measure maxWidth hmono w hw hover
      (splitSpace text) [] hwmem

/-- C1 witness: the amended bound evaluated at a concrete wrap. -/
theorem wrapText_width_bound_witness :
    (∀ l ∈ wrapText intLen ("hello world" : String).data 6 (some 2),
        l.width = intLen l.text ∧
        (intLen l.text ≤ 6 ∨ l.text ∈ splitSpace ("hello world" : String).data ∨
          l.text = ELLIPSIS)) ∧
    (∀ w ∈ splitSpace ("hello world" : String).data, w ≠ [] → 6 < intLen w →
        (⟨w, intLen w⟩ : WrappedLine ℤ) ∈
          wrapText intLen ("hello world" : String).data 6 none) :=
  wrapText_width_bound intLen ("hello world" : String).data 6 (some 2)
    (fun a b => intLen_mono a b)

/-- C1 counterexample: with `maxWidth = 1`, `maxLines = 1` and two
one-character words, `wrapText` returns the bare ellipsis line, whose
measured width 3 exceeds `maxWidth` although it is not an input word. -/
theorem wrapText_width_bound_counterexample :
    wrapText intLen ['a', ' ', 'b'] 1 (some 1) = [⟨ELLIPSIS, 3⟩] ∧
      ¬ ((⟨ELLIPSIS, (3 : ℤ)⟩ : WrappedLine ℤ).width ≤ 1) ∧
      ELLIPSIS ∉ splitSpace ['a', ' ', 'b'] := by
  refine ⟨by decide, by decide, by decide⟩

/-- C2: when the greedy wrap needs more than `maxLines` (positive —
`maxLines = 0` is JavaScript-falsy, i.e. the same as absent) lines,
`wrapText` returns exactly `maxLines` lines: the first `maxLines − 1`
kept lines unchanged, and a final line whose text is the last kept line's
text passed through the trailing-character drop loop with the ellipsis
then appended; that text-plus-ellipsis measures at most `maxWidth` unless
the drop loop erased the text entirely, and when `maxWidth` is smaller
than the ellipsis itself the final line is exactly the ellipsis
(append-monotone measure). -/
theorem wrapText_truncation {α : Type} [LinearOrder α] (measure : Str → α)
    (text : Str) (maxWidth : α) (k : ℕ)
    (hmono : ∀ a b : Str,
      measure a ≤ measure (a ++ b) ∧ measure b ≤ measure (a ++ b))
    (hk : 0 < k)
    (hlong : k < (wrapLines measure text maxWidth).length) :
    (wrapText measure text maxWidth (some k)).length = k ∧
    (∀ i, i < k - 1 →
      (wrapText measure text maxWidth (some k)).getD i ⟨[], measure []⟩ =
        (wrapLines measure text maxWidth).getD i ⟨[], measure []⟩) ∧
    (wrapText measure text maxWidth (some k)).getD (k - 1) ⟨[], measure []⟩
      = ⟨ellipsisTrim measure maxWidth
            ((wrapLines measure text maxWidth).getD (k - 1)
              ⟨[], measure []⟩).text ++ ELLIPSIS,
          measure (ellipsisTrim measure maxWidth
            ((wrapLines measure text maxWidth).getD (k - 1)
              ⟨[], measure []⟩).text ++ ELLIPSIS)⟩ ∧
    (measure (ellipsisTrim measure maxWidth
          ((wrapLines measure text maxWidth).getD (k - 1)
            ⟨[], measure []⟩).text ++ ELLIPSIS) ≤ maxWidth ∨
      ellipsisTrim measure maxWidth
          ((wrapLines measure text maxWidth).getD (k - 1)
            ⟨[], measure []⟩).text = []) ∧
    (maxWidth < measure ELLIPSIS →
      ((wrapText measure text maxWidth (some k)).getD (k - 1)
          ⟨[], measure []⟩).text = ELLIPSIS) := by
  have hmin : ((wrapLines measure text maxWidth).take k).length = k := by
    rw [List.length_take]
    exact Nat.min_eq_left (le_of_lt hlong)
  have hlast : ((wrapLines measure text maxWidth).take k).getD (k - 1)
      ⟨[], measure []⟩ =
      (wrapLines measure text maxWidth).getD (k - 1) ⟨[], measure []⟩ := by
    have h1 : k - 1 < ((wrapLines measure text maxWidth).take k).length := by
      omega
    have h2 : k - 1 < (wrapLines measure text maxWidth).length := by omega
    rw [List.getD_eq_getElem _ _ h1, List.getD_eq_getElem _ _ h2,
      List.getElem_take]
  have hout : wrapText measure text maxWidth (some k) =
      ((wrapLines measure text maxWidth).take k).set (k - 1)
        ⟨ellipsisTrim measure maxWidth
            ((wrapLines measure text maxWidth).getD (k - 1)
              ⟨[], measure []⟩).text ++ ELLIPSIS,
          measure (ellipsisTrim measure maxWidth
            ((wrapLines measure text maxWidth).getD (k - 1)
              ⟨[], measure []⟩).text ++ ELLIPSIS)⟩ := by
    simp only [wrapText]
    rw [if_pos (And.intro (by omega) hlong), hlast]
  have hlen : (wrapText measure text maxWidth (some k)).length = k := by
    rw [hout, List.length_set, hmin]
  have hsetlen : (((wrapLines measure text maxWidth).take k).set (k - 1)
      ⟨ellipsisTrim measure maxWidth
          ((wrapLines measure text maxWidth).getD (k - 1)
            ⟨[], measure []⟩).text ++ ELLIPSIS,
        measure (ellipsisTrim measure maxWidth
          ((wrapLines measure text maxWidth).getD (k - 1)
            ⟨[], measure []⟩).text ++ ELLIPSIS)⟩).length = k := by
    rw [List.length_set, hmin]
  have hlastD : (wrapText measure text maxWidth (some k)).getD (k - 1)
      ⟨[], measure []⟩
      = ⟨ellipsisTrim measure maxWidth
            ((wrapLines measure text maxWidth).getD (k - 1)
              ⟨[], measure []⟩).text ++ ELLIPSIS,
          measure (ellipsisTrim measure maxWidth
            ((wrapLines measure text maxWidth).getD (k - 1)
              ⟨[], measure []⟩).text ++ ELLIPSIS)⟩ := by
    rw [hout]
    rw [List.getD_eq_getElem _ _ (by omega : k - 1 < _)]
    rw [List.getElem_set, if_pos rfl]
  refine ⟨hlen, ?_, hlastD, ?_, ?_⟩
  · intro i hi
    have h2 : i < (wrapLines measure text maxWidth).length := by omega
    rw [hout]
    rw [List.getD_eq_getElem _ _ (by omega : i < _),
      List.getD_eq_getElem _ _ h2]
    rw [List.getElem_set, if_neg (by omega), List.getElem_take]
  · exact ellipsisTrim_spec measure maxWidth _
  · intro hE
    rw [hlastD]
    show ellipsisTrim measure maxWidth _ ++ ELLIPSIS = ELLIPSIS
    rw [ellipsisTrim_of_ellipsis_overflow measure maxWidth hmono hE]
    rfl

/-- C2 witness: three words of width 2 wrapped at width 2 need 3 lines;
with `maxLines = 2` the truncation contract holds concretely. -/
theorem wrapText_truncation_witness :
    (0 < 2 ∧ 2 < (wrapLines intLen ("aa bb cc" : String).data 2).length) ∧
    ((wrapText intLen ("aa bb cc" : String).data 2 (some 2)).length = 2 ∧
    (∀ i, i < 2 - 1 →
      (wrapText intLen ("aa bb cc" : String).data 2 (some 2)).getD i
          ⟨[], intLen []⟩ =
        (wrapLines intLen ("aa bb cc" : String).data 2).getD i
          ⟨[], intLen []⟩) ∧
    (wrapText intLen ("aa bb cc" : String).data 2 (some 2)).getD (2 - 1)
        ⟨[], intLen []⟩
      = ⟨ellipsisTrim intLen 2
            ((wrapLines intLen ("aa bb cc" : String).data 2).getD (2 - 1)
              ⟨[], intLen []⟩).text ++ ELLIPSIS,
          intLen (ellipsisTrim intLen 2
            ((wrapLines intLen ("aa bb cc" : String).data 2).getD (2 - 1)
              ⟨[], intLen []⟩).text ++ ELLIPSIS)⟩ ∧
    (intLen (ellipsisTrim intLen 2
          ((wrapLines intLen ("aa bb cc" : String).data 2).getD (2 - 1)
            ⟨[], intLen []⟩).text ++ ELLIPSIS) ≤ 2 ∨
      ellipsisTrim intLen 2
          ((wrapLines intLen ("aa bb cc" : String).data 2).getD (2 - 1)
            ⟨[], intLen []⟩).text = []) ∧
    ((2 : ℤ) < intLen ELLIPSIS →
      ((wrapText intLen ("aa bb cc" : String).data 2 (some 2)).getD (2 - 1)
          ⟨[], intLen []⟩).text = ELLIPSIS)) :=
  ⟨⟨by decide, by decide⟩,
    wrapText_truncation intLen ("aa bb cc" : String).data 2 2
      (fun a b => intLen_mono a b) (by decide) (by decide)⟩

/-! ## Color resolution (`src/utils/color.ts`) and variable tables -/

/-- `s.trim()`: strip whitespace from both ends. -/
def jsTrim (s : Str) : Str :=
  jsTrimEnd (s.dropWhile Char.isWhitespace)

/-- JavaScript property lookup in a string record, modelled as an
association list: `variables[key]`. -/
def jsLookup (vars : List (Str × Str)) (key : Str) : Option Str :=
  (vars.find? (fun p => p.1 = key)).map (fun p => p.2)

/-- JavaScript `x || d` for a possibly-absent string `x`: the empty
string is falsy. -/
def jsOrStr (x : Option Str) (d : Str) : Str :=
  match x with
  | some s => if s = [] then d else s
  | none => d

/-- The opaque-black default of `resolveColor`. -/
def defaultBlack : Str := ('#' :: ['0', '0', '0', '0', '0', '0'])

/-- `resolveColor` from `src/utils/color.ts`: a `{{key}}`-wrapped color
looks up the trimmed key, a `$key` shorthand looks up the key, both
defaulting to `'#000000'` under JavaScript `||`; anything else is
returned unchanged as a literal color. -/
def resolveColor (color : Str) (vars : List (Str × Str)) : Str :=
  if (['{', '{'] : Str).isPrefixOf color ∧
      (['}', '}'] : Str).isSuffixOf color then
    jsOrStr (jsLookup vars (jsTrim ((color.drop 2).dropLast.dropLast)))
      defaultBlack
  else if (['$'] : Str).isPrefixOf color then
    jsOrStr (jsLookup vars (color.drop 1)) defaultBlack
  else color

/-- C10: `resolveColor` yields the opaque-black default `'#000000'` for a
`{{…}}`-wrapped or `$`-prefixed color not only when the key is absent
from the color-variable table but also when the key is present with the
empty string as its value (JavaScript `||` treats `''` as falsy). -/
theorem resolveColor_empty_defaults_black (vars : List (Str × Str))
    (key : Str) :
    ((jsLookup vars (jsTrim key) = none ∨
        jsLookup vars (jsTrim key) = some []) →
      resolveColor (['{', '{'] ++ key ++ ['}', '}']) vars
        = defaultBlack) ∧
    ((jsLookup vars key = none ∨ jsLookup vars key = some []) →
      resolveColor ('$' :: key) vars = defaultBlack) := by
  constructor
  · intro h
    have hpre : (['{', '{'] : Str).isPrefixOf
        (['{', '{'] ++ key ++ ['}', '}']) = true := by
      rw [List.isPrefixOf_iff_prefix]
      exact (List.prefix_append _ _).trans (List.prefix_append _ _)
    have hsuf : (['}', '}'] : Str).isSuffixOf
        (['{', '{'] ++ key ++ ['}', '}']) = true := by
      rw [List.isSuffixOf_iff_suffix]
      exact List.suffix_append _ _
    have hkey : (((['{', '{'] ++ key ++ ['}', '}'] : Str).drop
        2).dropLast.dropLast) = key := by
      have h2 : (['{', '{'] ++ key ++ ['}', '}'] : Str).drop 2
          = key ++ ['}', '}'] := by
        rfl
      rw [h2]
      have h3 : (key ++ ['}', '}'] : Str) = (key ++ ['}']) ++ ['}'] := by
        simp
      rw [h3, List.dropLast_concat, List.dropLast_concat]
    unfold resolveColor
    rw [if_pos ⟨hpre, hsuf⟩, hkey]
    rcases h with h | h <;> simp [jsOrStr, h]
  · intro h
    have hpre : (['{', '{'] : Str).isPrefixOf ('$' :: key) = false := by
      simp [List.isPrefixOf]
    have hdollar : (['$'] : Str).isPrefixOf ('$' :: key) = true := by
      simp [List.isPrefixOf]
    unfold resolveColor
    rw [if_neg (by simp [hpre]), if_pos hdollar]
    have hdrop : ('$' :: key : Str).drop 1 = key := rfl
    rw [hdrop]
    rcases h with h | h <;> simp [jsOrStr, h]

/-- C10 witness: a present-but-empty `primary_colour` resolves to black
through both syntaxes. -/
theorem resolveColor_empty_defaults_black_witness :
    resolveColor (['{', '{'] ++ ("primary_colour" : String).data
        ++ ['}', '}'])
      [(("primary_colour" : String).data, ([] : Str))] = defaultBlack ∧
    resolveColor ('$' :: ("primary_colour" : String).data)
      [(("primary_colour" : String).data, ([] : Str))] = defaultBlack :=
  ⟨(resolveColor_empty_defaults_black
      [(("primary_colour" : String).data, ([] : Str))]
      ("primary_colour" : String).data).1 (Or.inr (by decide)),
    (resolveColor_empty_defaults_black
      [(("primary_colour" : String).data, ([] : Str))]
      ("primary_colour" : String).data).2 (Or.inr (by decide))⟩

/-! ## Layer opacity scoping (`png-renderer` `drawLayer`,
`src/engine/font-manager.ts` lines 134–169) -/

/-- The canvas-context state relevant to opacity scoping: the current
`globalAlpha` and the stack of states pushed by `ctx.save()` (each saved
state records the alpha it will restore). -/
structure AlphaCtx where
  globalAlpha : ℚ
  saveStack : List ℚ
deriving DecidableEq, Repr

/-- `ctx.save()`. -/
def ctxSave (c : AlphaCtx) : AlphaCtx :=
  { c with saveStack := c.globalAlpha :: c.saveStack }

/-- `ctx.restore()`: a restore on an empty stack is a no-op. -/
def ctxRestore (c : AlphaCtx) : AlphaCtx :=
  match c.saveStack with
  | [] => c
  | a :: rest => ⟨a, rest⟩

/-- A JavaScript exception escaping a variant draw. -/
abbrev DrawErr := Str

/-- The opacity scoping of `drawLayer`: when `layer.opacity` is defined
and `< 1`, `ctx.save()` and `ctx.globalAlpha = layer.opacity` run before
the variant dispatch and `ctx.restore()` after it. The mutable context is
passed explicitly and a thrown exception is the `some`-error component of
the variant draw's result, which propagates — the source wraps the
dispatch in no `try`/`finally`, so no restore runs on the error path. The
variant dispatch itself is the abstracted parameter `draw`. -/
def drawLayerAlpha (opacity : Option ℚ)
    (draw : AlphaCtx → AlphaCtx × Option DrawErr) (ctx : AlphaCtx) :
    AlphaCtx × Option DrawErr :=
  let ctx1 := match opacity with
    | some o => if o < 1 then { ctxSave ctx with globalAlpha := o } else ctx
    | none => ctx
  match draw ctx1 with
  | (ctx2, some e) => (ctx2, some e)
  | (ctx2, none) =>
      (match opacity with
        | some o => if o < 1 then ctxRestore ctx2 else ctx2
        | none => ctx2,
      none)

/-- C3 counterexample: with opacity `0 < 1` and a variant draw that
terminates with an error, `drawLayer` leaves the context with the layer's
alpha still set and the saved state still on the stack — the scoped state
is not restored on the error path. -/
theorem drawLayerAlpha_error_not_restored_counterexample :
    drawLayerAlpha (some 0) (fun c => (c, some ['e'])) ⟨1, []⟩
        = (⟨0, [1]⟩, some ['e']) ∧
      (⟨0, [1]⟩ : AlphaCtx).globalAlpha ≠ (⟨1, []⟩ : AlphaCtx).globalAlpha ∧
      (⟨0, [1]⟩ : AlphaCtx).saveStack.length
        ≠ (⟨1, []⟩ : AlphaCtx).saveStack.length ∧
      ((0 : ℚ) < 1) := by
  refine ⟨by decide, by decide, by decide, by decide⟩

/-- C3 (amended): for a layer with opacity strictly below 1, `drawLayer`
runs the variant draw with a saved context and `globalAlpha` set to the
layer's opacity, and when the draw completes normally (leaving the save
stack as it found it) the original `globalAlpha` and stack depth are
restored; when the draw terminates with an error the restore is skipped
and the modified state leaks to the caller. -/
theorem drawLayerAlpha_scoped (o : ℚ) (ho : o < 1)
    (draw : AlphaCtx → AlphaCtx × Option DrawErr) (ctx : AlphaCtx)
    (hok : (draw { ctxSave ctx with globalAlpha := o }).2 = none)
    (hbal : (draw { ctxSave ctx with globalAlpha := o }).1.saveStack =
      ctx.globalAlpha :: ctx.saveStack) :
    (drawLayerAlpha (some o) draw ctx).1.globalAlpha = ctx.globalAlpha ∧
    (drawLayerAlpha (some o) draw ctx).1.saveStack = ctx.saveStack ∧
    (drawLayerAlpha (some o) draw ctx).2 = none := by
  rcases hdraw : draw { ctxSave ctx with globalAlpha := o } with ⟨c2, e2⟩
  have he2 : e2 = none := by rw [hdraw] at hok; exact hok
  subst he2
  have hstack : c2.saveStack = ctx.globalAlpha :: ctx.saveStack := by
    rw [hdraw] at hbal; exact hbal
  have hres : drawLayerAlpha (some o) draw ctx = (ctxRestore c2, none) := by
    unfold drawLayerAlpha
    simp only [if_pos ho, hdraw]
  rw [hres]
  have hrest : ctxRestore c2 = ⟨ctx.globalAlpha, ctx.saveStack⟩ := by
    unfold ctxRestore
    rw [hstack]
  rw [hrest]
  exact ⟨rfl, rfl, rfl⟩

/-- C3 witness: the scoped-alpha restoration evaluated at a concrete
normally-completing draw. -/
theorem drawLayerAlpha_scoped_witness :
    ((0 : ℚ) < 1 ∧
      ((fun c => (c, none)) { ctxSave ⟨1, []⟩ with globalAlpha := 0 }
          : AlphaCtx × Option DrawErr).2 = none) ∧
    ((drawLayerAlpha (some 0) (fun c => (c, none)) ⟨1, []⟩).1.globalAlpha
        = (⟨1, []⟩ : AlphaCtx).globalAlpha ∧
      (drawLayerAlpha (some 0) (fun c => (c, none)) ⟨1, []⟩).1.saveStack
        = (⟨1, []⟩ : AlphaCtx).saveStack ∧
      (drawLayerAlpha (some 0) (fun c => (c, none)) ⟨1, []⟩).2 = none) :=
  ⟨⟨by decide, by decide⟩,
    drawLayerAlpha_scoped 0 (by decide) (fun c => (c, none)) ⟨1, []⟩
      (by decide) (by decide)⟩

/-! ## Template selection engine: rotation pool
(`templates/registry.ts`, `getRotationPool`) -/

/-- Output format of a template (`'png' | 'mp4'`). -/
inductive OutputFormat
  | png
  | mp4
deriving DecidableEq, Repr

/-- `TemplateWithMeta` as read by the rotation-pool logic: the inner
template payload is represented by the two fields the pool reads from it
(`template.outputFormat` and `template.imageCount`) next to the metadata
fields. -/
structure TemplateMeta where
  outputFormat : OutputFormat
  imageCount : ℕ
  airtableRecordId : Str
  rotationWeight : ℚ
  categoryKeys : List Str
deriving DecidableEq, Repr

/-- JavaScript `Math.round` (round half toward `+∞`), i.e.
`⌊x + 1/2⌋`, computed on the rational's numerator and denominator so it
kernel-evaluates; `jsRound_eq_floor` proves the characterization. -/
def jsRound (q : ℚ) : ℤ :=
  (2 * q.num + q.den).fdiv (2 * q.den)

theorem jsRound_eq_floor (q : ℚ) : jsRound q = ⌊q + 1 / 2⌋ := by
  have hden : ((q.den : ℚ)) ≠ 0 := by
    exact_mod_cast q.den_nz
  have hq : q * (q.den : ℚ) = (q.num : ℚ) := by
    nth_rewrite 1 [← Rat.num_div_den q]
    exact div_mul_cancel₀ _ hden
  have h1 : q + 1 / 2 = ((2 * q.num + (q.den : ℤ) : ℤ) : ℚ) /
      (((2 * q.den : ℕ) : ℕ) : ℚ) := by
    rw [eq_div_iff (by positivity)]
    push_cast
    linear_combination (2 : ℚ) * hq
  rw [h1, Rat.floor_intCast_div_natCast]
  unfold jsRound
  rw [Int.fdiv_eq_ediv _ (by positivity)]
  push_cast
  rfl

/-- The per-entry copy count
`Math.min(Math.max(1, Math.round(weight)), 10)`. -/
def weightCopies (w : ℚ) : ℕ :=
  (min (max 1 (jsRound w)) 10).toNat

/-- The category clause of `getRotationPool`'s loop: the intersection
check runs only when a filter is provided and non-empty
(`categoryKeys && categoryKeys.length > 0`). -/
def categoryOk : Option (List Str) → TemplateMeta → Bool
  | some ks, m =>
      if ks.isEmpty then true
      else m.categoryKeys.any (fun k => ks.contains k)
  | none, _ => true

/-- The candidate test of `getRotationPool`'s loop: matching output
format, image count within the available count, intersecting a provided
non-empty category filter, and positive rotation weight. -/
def matchesPool (format : OutputFormat) (imageCount : ℕ)
    (categoryKeys : Option (List Str)) (m : TemplateMeta) : Bool :=
  decide (m.outputFormat = format) &&
  decide (m.imageCount ≤ imageCount) &&
  categoryOk categoryKeys m &&
  decide (0 < m.rotationWeight)

/-- The sort key of `getRotationPool`: `a.airtableRecordId.localeCompare
(b.airtableRecordId)`, modelled as character-code lexicographic order. -/
def recordIdLe (a b : TemplateMeta) : Prop :=
  a.airtableRecordId ≤ b.airtableRecordId

instance : DecidableRel recordIdLe :=
  fun a b => inferInstanceAs (Decidable (a.airtableRecordId ≤ b.airtableRecordId))

instance : IsTotal TemplateMeta recordIdLe :=
  ⟨fun _ _ => le_total _ _⟩

instance : IsTrans TemplateMeta recordIdLe :=
  ⟨fun _ _ _ h1 h2 => le_trans h1 h2⟩

/-- `getRotationPool` from the template registry: filter the catalog
(its `Map.values()` iteration order is the list order) by
`matchesPool`, sort the candidates by Airtable record id — JavaScript's
`Array.prototype.sort` is stable and otherwise algorithm-unspecified, so
it is modelled by the stable `List.insertionSort` — and expand each
surviving candidate into `weightCopies` consecutive copies. -/
def getRotationPool (catalog : List TemplateMeta) (format : OutputFormat)
    (imageCount : ℕ) (categoryKeys : Option (List Str)) :
    List TemplateMeta :=
  let candidates := catalog.filter (matchesPool format imageCount categoryKeys)
  let sorted := candidates.insertionSort recordIdLe
  sorted.flatMap (fun c => List.replicate (weightCopies c.rotationWeight) c)

theorem pairwise_flatMap_replicate {β : Type} (R : β → β → Prop)
    (hrefl : ∀ b, R b b) (k : β → ℕ) (cs : List β) (h : cs.Pairwise R) :
    (cs.flatMap (fun c => List.replicate (k c) c)).Pairwise R := by
  rw [List.flatMap_def, List.pairwise_flatten]
  constructor
  · intro l hl
    rcases List.mem_map.mp hl with ⟨c, _, rfl⟩
    exact List.pairwise_replicate.mpr (Or.inr (hrefl c))
  · refine h.map _ (fun a b hab => ?_)
    intro x hx y hy
    rw [List.eq_of_mem_replicate hx, List.eq_of_mem_replicate hy]
    exact hab

theorem count_flatMap_replicate {β : Type} [DecidableEq β] (k : β → ℕ) :
    ∀ (cs : List β) (m : β), cs.Nodup → m ∈ cs →
      (cs.flatMap (fun c => List.replicate (k c) c)).count m = k m := by
  intro cs
  induction cs with
  | nil => intro m _ hm; simp at hm
  | cons c cs ih =>
      intro m hnd hm
      have hnd' := List.nodup_cons.mp hnd
      rcases List.mem_cons.mp hm with h | h
      · subst h
        have hzero : (cs.flatMap
            (fun c => List.replicate (k c) c)).count m = 0 := by
          rw [List.count_eq_zero]
          intro hmem
          rcases List.mem_flatMap.mp hmem with ⟨c', hc', hrep⟩
          exact hnd'.1 ((List.eq_of_mem_replicate hrep) ▸ hc')
        simp [List.flatMap_cons, List.count_append, hzero,
          List.count_replicate_self]
      · have hne : c ≠ m := by
          rintro rfl
          exact hnd'.1 h
        have hzero : (List.replicate (k c) c).count m = 0 := by
          rw [List.count_replicate]
          simp [hne]
        simp [List.flatMap_cons, List.count_append, hzero, ih m hnd'.2 h]

/-- C5 (amended): every entry of the rotation pool matches the requested
format, fits the available image count, intersects the category filter
when a non-empty one is given, and has positive rotation weight; the pool
is ordered by record id (so copies of a candidate are consecutive), is
the weight-expansion of a record-id-sorted permutation of the filtered
candidates, and — when record ids are distinct, as `Map` keys are — each
surviving candidate appears exactly `clamp(round(weight), 1, 10)`
times. -/
theorem getRotationPool_spec (catalog : List TemplateMeta)
    (format : OutputFormat) (imageCount : ℕ)
    (categoryKeys : Option (List Str))
    (hnodup : (catalog.map (fun m => m.airtableRecordId)).Nodup) :
    (∀ m ∈ getRotationPool catalog format imageCount categoryKeys,
        m.outputFormat = format ∧ m.imageCount ≤ imageCount ∧
        (∀ ks, categoryKeys = some ks → ks ≠ [] →
          ∃ k ∈ m.categoryKeys, k ∈ ks) ∧
        0 < m.rotationWeight) ∧
    (getRotationPool catalog format imageCount categoryKeys).Pairwise
      recordIdLe ∧
    (∃ cs : List TemplateMeta,
      List.Perm cs (catalog.filter (matchesPool format imageCount
          categoryKeys)) ∧
      List.Pairwise recordIdLe cs ∧
      getRotationPool catalog format imageCount categoryKeys =
        cs.flatMap (fun c => List.replicate (weightCopies c.rotationWeight)
          c)) ∧
    (∀ m ∈ catalog.filter (matchesPool format imageCount categoryKeys),
      (getRotationPool catalog format imageCount categoryKeys).count m =
        weightCopies m.rotationWeight) := by
  have hperm : ((catalog.filter (matchesPool format imageCount
      categoryKeys)).insertionSort recordIdLe).Perm
      (catalog.filter (matchesPool format imageCount categoryKeys)) :=
    List.perm_insertionSort recordIdLe _
  have hsorted : ((catalog.filter (matchesPool format imageCount
      categoryKeys)).insertionSort recordIdLe).Pairwise recordIdLe :=
    List.sorted_insertionSort recordIdLe _
  have hmem_decode : ∀ m ∈ catalog.filter (matchesPool format imageCount
      categoryKeys),
      m.outputFormat = format ∧ m.imageCount ≤ imageCount ∧
      (∀ ks, categoryKeys = some ks → ks ≠ [] →
        ∃ k ∈ m.categoryKeys, k ∈ ks) ∧
      0 < m.rotationWeight := by
    intro m hm
    have hp := (List.mem_filter.mp hm).2
    unfold matchesPool at hp
    simp only [Bool.and_eq_true, decide_eq_true_eq] at hp
    refine ⟨hp.1.1.1, hp.1.1.2, ?_, hp.2⟩
    rintro ks rfl hne
    have hcat := hp.1.2
    simp only [categoryOk] at hcat
    rw [if_neg (by simpa using hne)] at hcat
    rcases List.any_eq_true.mp hcat with ⟨k, hk, hkk⟩
    exact ⟨k, hk, by simpa using hkk⟩
  refine ⟨?_, ?_, ?_, ?_⟩
  · intro m hm
    rcases List.mem_flatMap.mp hm with ⟨c, hc, hrep⟩
    rw [List.eq_of_mem_replicate hrep]
    exact hmem_decode c (hperm.mem_iff.mp hc)
  · exact pairwise_flatMap_replicate recordIdLe (fun b => le_refl _) _ _
      hsorted
  · exact ⟨_, hperm, hsorted, rfl⟩
  · intro m hm
    have hnd : (catalog.filter (matchesPool format imageCount
        categoryKeys)).Nodup := by
      have h1 : catalog.Nodup := List.Nodup.of_map _ hnodup
      exact h1.filter _
    have hnd2 : ((catalog.filter (matchesPool format imageCount
        categoryKeys)).insertionSort recordIdLe).Nodup :=
      hperm.nodup_iff.mpr hnd
    exact count_flatMap_replicate _ _ m hnd2 (hperm.mem_iff.mpr hm)

/-- C5 witness: a two-entry catalog with weights 3 and 15 expands to 3
and 10 copies respectively, in record-id order. -/
theorem getRotationPool_spec_witness :
    (([(⟨.png, 1, ['r', '2'], 15, [['c']]⟩ : TemplateMeta),
        ⟨.png, 0, ['r', '1'], 3, [['c']]⟩].map
      (fun m => m.airtableRecordId)).Nodup) ∧
    ((∀ m ∈ getRotationPool
        [(⟨.png, 1, ['r', '2'], 15, [['c']]⟩ : TemplateMeta),
          ⟨.png, 0, ['r', '1'], 3, [['c']]⟩] .png 2 none,
        m.outputFormat = .png ∧ m.imageCount ≤ 2 ∧
        (∀ ks, (none : Option (List Str)) = some ks → ks ≠ [] →
          ∃ k ∈ m.categoryKeys, k ∈ ks) ∧
        0 < m.rotationWeight) ∧
    (getRotationPool [(⟨.png, 1, ['r', '2'], 15, [['c']]⟩ : TemplateMeta),
        ⟨.png, 0, ['r', '1'], 3, [['c']]⟩] .png 2 none).Pairwise
      recordIdLe ∧
    (∃ cs : List TemplateMeta,
      List.Perm cs ([(⟨.png, 1, ['r', '2'], 15, [['c']]⟩ : TemplateMeta),
          ⟨.png, 0, ['r', '1'], 3, [['c']]⟩].filter
        (matchesPool .png 2 none)) ∧
      List.Pairwise recordIdLe cs ∧
      getRotationPool [(⟨.png, 1, ['r', '2'], 15, [['c']]⟩ : TemplateMeta),
          ⟨.png, 0, ['r', '1'], 3, [['c']]⟩] .png 2 none =
        cs.flatMap (fun c => List.replicate (weightCopies c.rotationWeight)
          c)) ∧
    (∀ m ∈ [(⟨.png, 1, ['r', '2'], 15, [['c']]⟩ : TemplateMeta),
        ⟨.png, 0, ['r', '1'], 3, [['c']]⟩].filter
        (matchesPool .png 2 none),
      (getRotationPool [(⟨.png, 1, ['r', '2'], 15, [['c']]⟩ : TemplateMeta),
          ⟨.png, 0, ['r', '1'], 3, [['c']]⟩] .png 2 none).count m =
        weightCopies m.rotationWeight)) :=
  ⟨by decide,
    getRotationPool_spec
      [⟨.png, 1, ['r', '2'], 15, [['c']]⟩, ⟨.png, 0, ['r', '1'], 3, [['c']]⟩]
      .png 2 none (by decide)⟩

/-- C5 counterexample: with a provided but empty category filter the
source skips the intersection check entirely (`categoryKeys &&
categoryKeys.length > 0`), so the pool contains an entry that does not
intersect the given (empty) filter. -/
theorem getRotationPool_counterexample :
    getRotationPool [(⟨.png, 0, ['r'], 1, [['c']]⟩ : TemplateMeta)] .png 0
        (some []) = [⟨.png, 0, ['r'], 1, [['c']]⟩] ∧
      ¬ ∃ k ∈ (⟨.png, 0, ['r'], 1, [['c']]⟩ : TemplateMeta).categoryKeys,
          k ∈ ([] : List Str) := by
  refine ⟨by decide, by decide⟩

/-! ## Template selection engine: round-robin (`selectFromPool`) -/

/-- Per-format rotation cursor (`{ lastIndex: number }`). -/
structure FormatState where
  lastIndex : ℤ
deriving DecidableEq, Repr

/-- `RotationState` from `types.ts`: one cursor per output format. -/
structure RotationState where
  png : FormatState
  mp4 : FormatState
deriving DecidableEq, Repr

/-- `format === 'png' ? state.png : state.mp4`. -/
def formatStateOf (state : RotationState) : OutputFormat → FormatState
  | .png => state.png
  | .mp4 => state.mp4

/-- `{ ...state, [format]: { lastIndex: nextIndex } }`. -/
def setFormatState (state : RotationState) (format : OutputFormat)
    (fs : FormatState) : RotationState :=
  match format with
  | .png => { state with png := fs }
  | .mp4 => { state with mp4 := fs }

/-- JavaScript array indexing `pool[i]` at an arbitrary integer index:
`undefined` (here `none`) outside `[0, length)`. -/
def jsIndex {β : Type} (l : List β) (i : ℤ) : Option β :=
  if h : 0 ≤ i ∧ i < l.length then some (l.get ⟨i.toNat, by omega⟩)
  else none

/-- `selectFromPool` from the template registry: `null` on an empty pool;
otherwise advance the per-format `lastIndex` by one with JavaScript `%`
(remainder carrying the dividend's sign, `Int.tmod`) and return the pool
entry at the new index together with the updated state. -/
def selectFromPool (pool : List TemplateMeta) (state : RotationState)
    (format : OutputFormat) :
    Option (Option TemplateMeta × RotationState) :=
  if pool.length = 0 then none
  else
    let nextIndex : ℤ :=
      Int.tmod ((formatStateOf state format).lastIndex + 1) pool.length
    some (jsIndex pool nextIndex, setFormatState state format ⟨nextIndex⟩)

/-- `pool.length` successive calls to `selectFromPool`, each feeding the
updated state back in, collecting the selections. -/
def selectIter (pool : List TemplateMeta) (format : OutputFormat) :
    ℕ → RotationState → List (Option TemplateMeta)
  | 0, _ => []
  | n + 1, s =>
      match selectFromPool pool s format with
      | none => []
      | some (sel, s') => sel :: selectIter pool format n s'

theorem formatStateOf_set (state : RotationState) (format : OutputFormat)
    (fs : FormatState) :
    formatStateOf (setFormatState state format fs) format = fs := by
  cases format <;> rfl

theorem jsIndex_of_lt {β : Type} (l : List β) (i : ℤ) (h0 : 0 ≤ i)
    (hlt : i < l.length) :
    jsIndex l i = l[i.toNat]? := by
  unfold jsIndex
  rw [dif_pos ⟨h0, hlt⟩]
  have hn : i.toNat < l.length := by omega
  rw [List.getElem?_eq_getElem hn]
  rfl

/-- One non-empty-pool step of `selectFromPool`, with the JavaScript
remainder rewritten to the mathematical one (valid for cursors from
`-1` up). -/
theorem selectFromPool_step (pool : List TemplateMeta)
    (state : RotationState) (format : OutputFormat) (hpool : pool ≠ [])
    (hlast : -1 ≤ (formatStateOf state format).lastIndex) :
    selectFromPool pool state format =
      some (jsIndex pool (((formatStateOf state format).lastIndex + 1) %
          (pool.length : ℤ)),
        setFormatState state format
          ⟨((formatStateOf state format).lastIndex + 1) %
            (pool.length : ℤ)⟩) := by
  have hlen : pool.length ≠ 0 := by
    simpa [List.length_eq_zero] using hpool
  have hmod : Int.tmod ((formatStateOf state format).lastIndex + 1)
      pool.length =
      ((formatStateOf state format).lastIndex + 1) % (pool.length : ℤ) :=
    Int.tmod_eq_emod (by omega) (by positivity)
  unfold selectFromPool
  rw [if_neg hlen, hmod]

theorem selectIter_formula (pool : List TemplateMeta)
    (format : OutputFormat) (hpool : pool ≠ []) :
    ∀ (k : ℕ) (s : RotationState),
      -1 ≤ (formatStateOf s format).lastIndex →
      selectIter pool format k s = (List.range k).map (fun j : ℕ =>
        jsIndex pool (((formatStateOf s format).lastIndex + 1 + (j : ℤ)) %
          (pool.length : ℤ))) := by
  have hn : 0 < (pool.length : ℤ) := by
    have := List.length_pos.mpr hpool
    exact_mod_cast this
  intro k
  induction k with
  | zero => intro s _; rfl
  | succ k ih =>
      intro s hs
      have hnonneg : 0 ≤ ((formatStateOf s format).lastIndex + 1) %
          (pool.length : ℤ) :=
        Int.emod_nonneg _ (by omega)
      have hs' : -1 ≤ (formatStateOf (setFormatState s format
          ⟨((formatStateOf s format).lastIndex + 1) %
            (pool.length : ℤ)⟩) format).lastIndex := by
        rw [formatStateOf_set]
        show -1 ≤ ((formatStateOf s format).lastIndex + 1) %
          (pool.length : ℤ)
        omega
      rw [selectIter, selectFromPool_step pool s format hpool hs]
      show jsIndex pool (((formatStateOf s format).lastIndex + 1) %
          (pool.length : ℤ)) ::
        selectIter pool format k (setFormatState s format
          ⟨((formatStateOf s format).lastIndex + 1) %
            (pool.length : ℤ)⟩) = _
      rw [ih _ hs', formatStateOf_set]
      rw [List.range_succ_eq_map, List.map_cons, List.map_map]
      congr 1
      · norm_num
      · apply List.map_congr_left
        intro j _
        show jsIndex pool
          ((((formatStateOf s format).lastIndex + 1) %
              (pool.length : ℤ) + 1 + (j : ℤ)) %
            (pool.length : ℤ)) = _
        congr 1
        conv_lhs => rw [add_assoc]
        rw [Int.emod_add_emod]
        push_cast
        ring_nf


/-- C6 (amended): for a non-empty pool and any state whose cursor is at
least `-1` (its initial value; all states the code itself writes back),
`selectFromPool` returns the entry at index `(lastIndex + 1) mod
pool.length` with the updated per-format cursor; `pool.length` successive
calls visit each pool index exactly once (the visited index list is
duplicate-free and covers `[0, pool.length)`); the empty pool yields no
selection. -/
theorem selectFromPool_spec (pool : List TemplateMeta)
    (state : RotationState) (format : OutputFormat)
    (hpool : pool ≠ [])
    (hlast : -1 ≤ (formatStateOf state format).lastIndex) :
    (selectFromPool pool state format =
      some (pool[(((formatStateOf state format).lastIndex + 1) %
          (pool.length : ℤ)).toNat]?,
        setFormatState state format
          ⟨((formatStateOf state format).lastIndex + 1) %
            (pool.length : ℤ)⟩)) ∧
    ((((formatStateOf state format).lastIndex + 1) %
        (pool.length : ℤ)).toNat < pool.length) ∧
    (selectIter pool format pool.length state =
      (List.range pool.length).map (fun j : ℕ =>
        jsIndex pool (((formatStateOf state format).lastIndex + 1 + (j : ℤ)) %
          (pool.length : ℤ)))) ∧
    (((List.range pool.length).map (fun j : ℕ =>
        (((formatStateOf state format).lastIndex + 1 + (j : ℤ)) %
          (pool.length : ℤ)))).Nodup) ∧
    (∀ i : ℤ, 0 ≤ i → i < pool.length →
      i ∈ (List.range pool.length).map (fun j : ℕ =>
        (((formatStateOf state format).lastIndex + 1 + (j : ℤ)) %
          (pool.length : ℤ)))) ∧
    (∀ (s : RotationState) (f : OutputFormat),
      selectFromPool ([] : List TemplateMeta) s f = none) := by
  have hn : 0 < (pool.length : ℤ) := by
    have := List.length_pos.mpr hpool
    exact_mod_cast this
  have hne : (pool.length : ℤ) ≠ 0 := by omega
  have hnonneg : 0 ≤ ((formatStateOf state format).lastIndex + 1) %
      (pool.length : ℤ) :=
    Int.emod_nonneg _ hne
  have hltZ : ((formatStateOf state format).lastIndex + 1) %
      (pool.length : ℤ) < pool.length :=
    Int.emod_lt_of_pos _ hn
  have hlt : (((formatStateOf state format).lastIndex + 1) %
      (pool.length : ℤ)).toNat < pool.length := by omega
  refine ⟨?_, hlt, selectIter_formula pool format hpool pool.length state
    hlast, ?_, ?_, fun s f => rfl⟩
  · rw [selectFromPool_step pool state format hpool hlast,
      jsIndex_of_lt pool _ hnonneg hltZ]
  · apply List.Nodup.map_on ?_ (List.nodup_range _)
    intro x hx y hy hxy
    rw [List.mem_range] at hx hy
    have hcancel : (x : ℤ) ≡ (y : ℤ) [ZMOD (pool.length : ℤ)] :=
      Int.ModEq.add_left_cancel'
        ((formatStateOf state format).lastIndex + 1) (by
          show (_ + (x : ℤ)) % _ = (_ + (y : ℤ)) % _
          convert hxy using 2)
    have hx' : (x : ℤ) % (pool.length : ℤ) = x :=
      Int.emod_eq_of_lt (by positivity) (by exact_mod_cast hx)
    have hy' : (y : ℤ) % (pool.length : ℤ) = y :=
      Int.emod_eq_of_lt (by positivity) (by exact_mod_cast hy)
    have : (x : ℤ) = y := by
      have h := hcancel
      rw [Int.ModEq, hx', hy'] at h
      exact h
    exact_mod_cast this
  · intro i h0 hi
    rw [List.mem_map]
    refine ⟨((i - ((formatStateOf state format).lastIndex + 1)) %
      (pool.length : ℤ)).toNat, ?_, ?_⟩
    · rw [List.mem_range]
      have := Int.emod_nonneg
        (i - ((formatStateOf state format).lastIndex + 1)) hne
      have := Int.emod_lt_of_pos
        (i - ((formatStateOf state format).lastIndex + 1)) hn
      omega
    · have hcast : (((i - ((formatStateOf state format).lastIndex + 1)) %
          (pool.length : ℤ)).toNat : ℤ) =
          (i - ((formatStateOf state format).lastIndex + 1)) %
            (pool.length : ℤ) :=
        Int.toNat_of_nonneg (Int.emod_nonneg _ hne)
      rw [hcast]
      conv_lhs => rw [add_comm ((formatStateOf state format).lastIndex + 1)
        ((i - ((formatStateOf state format).lastIndex + 1)) %
          (pool.length : ℤ)), Int.emod_add_emod]
      rw [sub_add_cancel]
      exact Int.emod_eq_of_lt h0 hi

/-- C6 witness: the amended round-robin contract at a concrete two-entry
pool and the initial cursor. -/
theorem selectFromPool_spec_witness :
    (selectFromPool
        [(⟨.png, 0, ['a'], 1, []⟩ : TemplateMeta), ⟨.png, 0, ['b'], 1, []⟩]
        ⟨⟨0⟩, ⟨0⟩⟩ .png =
      some ([(⟨.png, 0, ['a'], 1, []⟩ : TemplateMeta),
          ⟨.png, 0, ['b'], 1, []⟩][(((0 : ℤ) + 1) % (2 : ℤ)).toNat]?,
        setFormatState ⟨⟨0⟩, ⟨0⟩⟩ .png ⟨((0 : ℤ) + 1) % (2 : ℤ)⟩)) ∧
    ((((0 : ℤ) + 1) % (2 : ℤ)).toNat < 2) ∧
    (selectIter [(⟨.png, 0, ['a'], 1, []⟩ : TemplateMeta),
        ⟨.png, 0, ['b'], 1, []⟩] .png 2 ⟨⟨0⟩, ⟨0⟩⟩ =
      (List.range 2).map (fun j : ℕ =>
        jsIndex [(⟨.png, 0, ['a'], 1, []⟩ : TemplateMeta),
          ⟨.png, 0, ['b'], 1, []⟩] (((0 : ℤ) + 1 + (j : ℤ)) % (2 : ℤ)))) ∧
    (((List.range 2).map
      (fun j : ℕ => (((0 : ℤ) + 1 + (j : ℤ)) % (2 : ℤ)))).Nodup) ∧
    (∀ i : ℤ, 0 ≤ i → i < 2 →
      i ∈ (List.range 2).map
        (fun j : ℕ => (((0 : ℤ) + 1 + (j : ℤ)) % (2 : ℤ)))) ∧
    (∀ (s : RotationState) (f : OutputFormat),
      selectFromPool ([] : List TemplateMeta) s f = none) :=
  selectFromPool_spec
    [⟨.png, 0, ['a'], 1, []⟩, ⟨.png, 0, ['b'], 1, []⟩]
    ⟨⟨0⟩, ⟨0⟩⟩ .png (by decide) (by decide)

/-- C6 counterexample: the claim quantifies over every rotation state,
but for a stored cursor of `-2` the JavaScript remainder is `-1`, the
indexing yields `undefined` rather than the entry at the mathematical
`(lastIndex + 1) mod pool.length = 1`, and the written-back cursor is
`-1`, not `1`. -/
theorem selectFromPool_counterexample :
    selectFromPool
        [(⟨.png, 0, ['a'], 1, []⟩ : TemplateMeta), ⟨.png, 0, ['b'], 1, []⟩]
        ⟨⟨-2⟩, ⟨0⟩⟩ .png
      = some (none, ⟨⟨-1⟩, ⟨0⟩⟩) ∧
    ((-2 + 1 : ℤ) % (2 : ℤ) = 1) ∧
    ((none : Option TemplateMeta) ≠
      some (⟨.png, 0, ['b'], 1, []⟩ : TemplateMeta)) ∧
    ((-1 : ℤ) ≠ 1) := by
  refine ⟨by decide, by decide, by decide, by decide⟩

/-! ## Asset cache (`src/engine/asset-loader.ts`, `loadRemoteImage`) -/

/-- The memoization cache `imageCache : Map<string, Image>`: an
insertion-ordered association list (a JavaScript `Map` iterates in
insertion order, so `keys().next().value` is the oldest key). Decoded
images are opaque to the cache logic and modelled by a type parameter. -/
structure ImageCache (β : Type) where
  entries : List (Str × β)

/-- The fixed cache capacity (`MAX_CACHE_SIZE = 100`). -/
def MAX_CACHE_SIZE : ℕ := 100

/-- `imageCache.get(url)`. -/
def cacheGet {β : Type} (c : ImageCache β) (url : Str) : Option β :=
  (c.entries.find? (fun p => p.1 = url)).map (fun p => p.2)

/-- `imageCache.delete(key)` (keys are unique in a `Map`). -/
def cacheDelete {β : Type} (c : ImageCache β) (key : Str) : ImageCache β :=
  ⟨c.entries.eraseP (fun p => p.1 = key)⟩

/-- `imageCache.set(url, img)`: update in place when the key exists,
append otherwise. -/
def cacheSet {β : Type} (c : ImageCache β) (url : Str) (img : β) :
    ImageCache β :=
  if c.entries.any (fun p => p.1 = url) then
    ⟨c.entries.map (fun p => if p.1 = url then (url, img) else p)⟩
  else ⟨c.entries ++ [(url, img)]⟩

/-- `loadRemoteImage` (`src/engine/asset-loader.ts` lines 7–38): a cached
URL returns the memoized image with no fetch; otherwise the external
fetch-and-decode (abstracted as the `fetched` parameter; its `Except`
error is the thrown fetch/decode failure, which propagates without
touching the cache) is stored after evicting the oldest entry when the
cache is full (`if (firstKey)`: JavaScript truthiness, so an empty-string
first key — unreachable through real fetches — would be skipped). The
returned flag records whether the fetch path ran. -/
def loadRemoteImage {β : Type} (fetched : Except Str β) (c : ImageCache β)
    (url : Str) : Except Str (β × ImageCache β × Bool) :=
  match cacheGet c url with
  | some img => .ok (img, c, false)
  | none =>
      match fetched with
      | .error e => .error e
      | .ok img =>
          let c1 :=
            if MAX_CACHE_SIZE ≤ c.entries.length then
              match c.entries.head? with
              | some p => if p.1 = [] then c else cacheDelete c p.1
              | none => c
            else c
          .ok (img, cacheSet c1 url img, true)

/-- C8: the cache never exceeds 100 entries; a cached URL is returned
memoized with no fetch; inserting a 101st distinct URL into a full cache
evicts exactly the oldest entry and leaves the remaining 99 entries plus
the new one resolvable without re-fetch (stated for non-empty URL keys —
the `if (firstKey)` truthiness guard only distinguishes the empty-string
key, which no successful fetch can produce). -/
theorem loadRemoteImage_cache_spec {β : Type} (c : ImageCache β)
    (url : Str) (hkeys : ∀ p ∈ c.entries, p.1 ≠ []) :
    (∀ img, cacheGet c url = some img →
      ∀ fetched, loadRemoteImage fetched c url = .ok (img, c, false)) ∧
    (∀ (fetched : Except Str β) (v : β) (c' : ImageCache β) (flag : Bool),
      c.entries.length ≤ MAX_CACHE_SIZE →
      loadRemoteImage fetched c url = .ok (v, c', flag) →
      c'.entries.length ≤ MAX_CACHE_SIZE) ∧
    (∀ img : β,
      c.entries.length = MAX_CACHE_SIZE →
      cacheGet c url = none →
      loadRemoteImage (.ok img) c url =
        .ok (img, ⟨c.entries.tail ++ [(url, img)]⟩, true) ∧
      (∀ k, (k ∈ c.entries.tail.map Prod.fst ∨ k = url) →
        ∃ v, ∀ fetched2 : Except Str β,
          loadRemoteImage fetched2 ⟨c.entries.tail ++ [(url, img)]⟩ k =
            .ok (v, ⟨c.entries.tail ++ [(url, img)]⟩, false))) := by
  refine ⟨?_, ?_, ?_⟩
  · intro img hhit fetched
    unfold loadRemoteImage
    rw [hhit]
  · intro fetched v c' flag hlen hres
    unfold loadRemoteImage at hres
    cases hget : cacheGet c url with
    | some img =>
        rw [hget] at hres
        simp only [Except.ok.injEq, Prod.mk.injEq] at hres
        rw [← hres.2.1]
        exact hlen
    | none =>
        rw [hget] at hres
        cases fetched with
        | error e => simp at hres
        | ok img =>
            simp only [Except.ok.injEq, Prod.mk.injEq] at hres
            have hfresh : ∀ p ∈ c.entries, ¬ (p.1 = url) := by
              intro p hp
              have := List.find?_eq_none.mp (by
                unfold cacheGet at hget
                exact Option.map_eq_none.mp hget) p hp
              simpa using this
            rw [← hres.2.1]
            by_cases hfull : MAX_CACHE_SIZE ≤ c.entries.length
            · have hMAX : c.entries.length = MAX_CACHE_SIZE := by omega
              obtain ⟨e0, rest, hc⟩ : ∃ e0 rest, c.entries = e0 :: rest := by
                cases hcs : c.entries with
                | nil =>
                    rw [hcs] at hMAX
                    simp [MAX_CACHE_SIZE] at hMAX
                | cons e0 rest => exact ⟨e0, rest, rfl⟩
              rw [if_pos hfull, hc]
              simp only [List.head?_cons]
              rw [if_neg (hkeys e0 (hc ▸ List.mem_cons_self _ _))]
              unfold cacheDelete cacheSet
              rw [hc]
              simp only [List.eraseP_cons, decide_True, cond_true]
              rw [if_neg (by
                intro hcontra
                rcases List.any_eq_true.mp hcontra with ⟨p, hp, hpu⟩
                exact hfresh p (hc ▸ List.mem_cons_of_mem _ hp)
                  (by simpa using hpu))]
              simp only [List.length_append, List.length_cons,
                List.length_nil]
              rw [hc] at hMAX
              simp only [List.length_cons] at hMAX
              omega
            · rw [if_neg hfull]
              unfold cacheSet
              rw [if_neg (by
                intro hcontra
                rcases List.any_eq_true.mp hcontra with ⟨p, hp, hpu⟩
                exact hfresh p hp (by simpa using hpu))]
              simp only [List.length_append, List.length_cons,
                List.length_nil]
              omega
  · intro img hMAX hmiss
    have hfresh : ∀ p ∈ c.entries, ¬ (p.1 = url) := by
      intro p hp
      have := List.find?_eq_none.mp (by
        unfold cacheGet at hmiss
        exact Option.map_eq_none.mp hmiss) p hp
      simpa using this
    obtain ⟨e0, rest, hc⟩ : ∃ e0 rest, c.entries = e0 :: rest := by
      cases hcs : c.entries with
      | nil =>
          rw [hcs] at hMAX
          simp [MAX_CACHE_SIZE] at hMAX
      | cons e0 rest => exact ⟨e0, rest, rfl⟩
    have hres : loadRemoteImage (.ok img) c url =
        .ok (img, ⟨c.entries.tail ++ [(url, img)]⟩, true) := by
      unfold loadRemoteImage
      rw [hmiss]
      rw [if_pos (le_of_eq hMAX.symm), hc]
      simp only [List.head?_cons]
      rw [if_neg (hkeys e0 (hc ▸ List.mem_cons_self _ _))]
      unfold cacheDelete cacheSet
      rw [hc]
      simp only [List.eraseP_cons, decide_True, cond_true]
      rw [if_neg (by
        intro hcontra
        rcases List.any_eq_true.mp hcontra with ⟨p, hp, hpu⟩
        exact hfresh p (hc ▸ List.mem_cons_of_mem _ hp)
          (by simpa using hpu))]
      rfl
    refine ⟨hres, ?_⟩
    intro k hk
    rcases hk with hk | hk
    · rcases List.mem_map.mp hk with ⟨p, hp, hpk⟩
      have hsome : ((c.entries.tail ++ [(url, img)]).find?
          (fun q => q.1 = k)).isSome := by
        rw [List.find?_isSome]
        exact ⟨p, List.mem_append_left _ hp, by simpa using hpk⟩
      obtain ⟨q, hq⟩ := Option.isSome_iff_exists.mp hsome
      refine ⟨q.2, fun fetched2 => ?_⟩
      unfold loadRemoteImage cacheGet
      rw [hq]
      rfl
    · refine ⟨img, fun fetched2 => ?_⟩
      have hfind : (c.entries.tail ++ [(url, img)]).find?
          (fun q => q.1 = k) = some (url, img) := by
        rw [hk, List.find?_append]
        have h1 : (c.entries.tail.find? (fun q => q.1 = url)) = none := by
          rw [List.find?_eq_none]
          intro p hp
          have : p ∈ c.entries := by
            rw [hc] at hp ⊢
            exact List.mem_cons_of_mem _ hp
          simpa using hfresh p this
        rw [h1]
        simp [List.find?]
      unfold loadRemoteImage cacheGet
      rw [hfind]
      rfl

/-- A concrete full cache for the C8 witness: 100 entries with distinct
non-empty keys `'a'`, `'aa'`, …. -/
def cacheW : ImageCache ℕ :=
  ⟨(List.range MAX_CACHE_SIZE).map
    (fun i => (List.replicate (i + 1) 'a', i))⟩

/-- C8 witness: the cache contract evaluated at a concrete full cache and
a fresh URL. -/
theorem loadRemoteImage_cache_spec_witness :
    (∀ p ∈ cacheW.entries, p.1 ≠ []) ∧
    ((∀ img, cacheGet cacheW ['b'] = some img →
      ∀ fetched, loadRemoteImage fetched cacheW ['b'] =
        .ok (img, cacheW, false)) ∧
    (∀ (fetched : Except Str ℕ) (v : ℕ) (c' : ImageCache ℕ) (flag : Bool),
      cacheW.entries.length ≤ MAX_CACHE_SIZE →
      loadRemoteImage fetched cacheW ['b'] = .ok (v, c', flag) →
      c'.entries.length ≤ MAX_CACHE_SIZE) ∧
    (∀ img : ℕ,
      cacheW.entries.length = MAX_CACHE_SIZE →
      cacheGet cacheW ['b'] = none →
      loadRemoteImage (.ok img) cacheW ['b'] =
        .ok (img, ⟨cacheW.entries.tail ++ [(['b'], img)]⟩, true) ∧
      (∀ k, (k ∈ cacheW.entries.tail.map Prod.fst ∨ k = ['b']) →
        ∃ v, ∀ fetched2 : Except Str ℕ,
          loadRemoteImage fetched2 ⟨cacheW.entries.tail ++ [(['b'], img)]⟩
            k = .ok (v, ⟨cacheW.entries.tail ++ [(['b'], img)]⟩,
              false)))) :=
  ⟨by decide, loadRemoteImage_cache_spec cacheW ['b'] (by decide)⟩

/-! ## Template data model (`types.ts`), restricted to the fields the
renderer reads -/

/-- An image's intrinsic dimensions: decoded images are opaque to the
compositor except for `img.width` / `img.height`. -/
structure ImageDim where
  width : ℚ
  height : ℚ
deriving DecidableEq, Repr

/-- A drop shadow (`{ blur, offsetX, offsetY, color }`). -/
structure ShadowDef where
  blur : ℚ
  offsetX : ℚ
  offsetY : ℚ
  color : Str
deriving DecidableEq, Repr

/-- A rect stroke (`{ color, width }`). -/
structure StrokeDef where
  color : Str
  width : ℚ
deriving DecidableEq, Repr

/-- The discriminated layer variants (`LayerDefinition` in `types.ts`);
enum-like string unions (`fit`, `align`, …) are carried as strings. -/
inductive LayerKind
  | image (index : ℕ) (fit : Str) (shadow : Option ShadowDef)
  | text (content : Str) (fontFamily : Str) (fontSize : ℚ)
      (fontWeight : Str) (color : Str) (align : Str)
      (verticalAlign : Option Str) (maxLines : Option ℕ)
      (lineHeight : Option ℚ) (textTransform : Option String)
      (padding : Option ℚ) (letterSpacing : Option ℚ)
  | rect (fill : Str) (stroke : Option StrokeDef)
  | logo (fit : Str) (padding : Option ℚ) (background : Option Str)
  | accentBar (color : Str)
  | ctaImage (variant : Str) (fit : Str) (padding : Option ℚ)
      (background : Option Str)
deriving DecidableEq, Repr

/-- A layer: the `BaseLayer` fields the renderer reads, plus the
variant payload (`anchor` is never read by the png renderer and is
omitted). -/
structure LayerDef where
  x : ℚ
  y : ℚ
  width : ℚ
  height : ℚ
  opacity : Option ℚ
  borderRadius : Option ℚ
  visible : Option Bool
  kind : LayerKind
deriving DecidableEq, Repr

/-- `BackgroundDef` (`solid` / `gradient` / indexed `image`). -/
inductive BackgroundDef
  | solid (color : Str)
  | gradient (colors : List Str) (angle : ℚ)
  | image (index : ℕ)
deriving DecidableEq, Repr

/-- A frame: optional hold duration, background, ordered layers. -/
structure FrameDef where
  durationMs : Option ℚ
  background : BackgroundDef
  layers : List LayerDef
deriving DecidableEq, Repr

/-- `template.transition` (type + duration in ms). -/
structure TransitionDef where
  type : Str
  durationMs : ℚ
deriving DecidableEq, Repr

/-- A template, restricted to the fields the png and mp4 renderers
read. -/
structure TemplateDef where
  id : Str
  width : ℚ
  height : ℚ
  fps : Option ℚ
  frames : List FrameDef
  transition : Option TransitionDef
deriving DecidableEq, Repr

/-- A value of the `RenderVariables` record as seen by
`resolveVariables`: a string, a string array, or anything else. -/
inductive VarValue
  | str (s : Str)
  | strList (l : List Str)
  | other
deriving DecidableEq, Repr

/-- The `RenderVariables` record, modelled as a flat association list of
field name to value. -/
abbrev RenderVars := List (Str × VarValue)

/-! ## Variable resolution (`layout-engine.ts`) -/

/-- `JSON` word characters of the `\w` class: ASCII letters, digits,
underscore. -/
def isWordChar (c : Char) : Bool :=
  c.isAlphanum || c = '_'

/-- `Array.prototype.join(', ')`. -/
def intercalateStr (sep : Str) : List Str → Str
  | [] => []
  | [x] => x
  | x :: xs => x ++ sep ++ intercalateStr sep xs

/-- Property lookup `variables[key]` on the `RenderVariables` record. -/
def jsLookupVar (vars : RenderVars) (key : Str) : Option VarValue :=
  (vars.find? (fun p => p.1 = key)).map (fun p => p.2)

/-- The replacement callback of `resolveVariables`: string values verbatim,
arrays joined with `', '`, anything else (and absent keys) the empty
string. -/
def varReplacement (vars : RenderVars) (key : Str) : Str :=
  match jsLookupVar vars key with
  | some (.str s) => s
  | some (.strList l) => intercalateStr [',', ' '] l
  | some .other => []
  | none => []

/-- `resolveVariables` from `layout-engine.ts`: one left-to-right pass
replacing each `{{word}}` token (`/\{\x7b(\w+)\}\x7d/g`) by its
replacement, with no re-scanning of substituted content. -/
def resolveVariables (vars : RenderVars) : Str → Str
  | [] => []
  | '{' :: '{' :: rest =>
      let key := rest.takeWhile isWordChar
      let after := rest.dropWhile isWordChar
      if key ≠ [] ∧ after.take 2 = ['}', '}'] then
        varReplacement vars key ++
          resolveVariables vars (after.drop 2)
      else '{' :: resolveVariables vars ('{' :: rest)
  | c :: rest => c :: resolveVariables vars rest
termination_by s => s.length
decreasing_by
  · have h1 := length_dropWhile_le isWordChar rest
    have h2 : ((rest.dropWhile isWordChar).drop 2).length =
        (rest.dropWhile isWordChar).length - 2 := List.length_drop _ _
    simp only [List.length_cons]
    omega
  · simp only [List.length_cons]
    omega
  · simp only [List.length_cons]
    omega

/-- A string field read (`variables.primary_colour` etc.) on the
modelled record. -/
def strField (vars : RenderVars) (key : Str) : Str :=
  match jsLookupVar vars key with
  | some (.str s) => s
  | _ => []

/-- JavaScript `s || d` for a string already in hand. -/
def jsOrStrV (s d : Str) : Str :=
  if s = [] then d else s

/-- `buildColorVariables` from `layout-engine.ts`: the canonical
color-variable table with both spellings and brand defaults. -/
def buildColorVariables (vars : RenderVars) : List (Str × Str) :=
  [(("primary_colour" : String).data,
      jsOrStrV (strField vars ("primary_colour" : String).data)
        ("#235BAA" : String).data),
   (("secondary_colour" : String).data,
      jsOrStrV (strField vars ("secondary_colour" : String).data)
        ("#FFFFFF" : String).data),
   (("primary_color" : String).data,
      jsOrStrV (strField vars ("primary_colour" : String).data)
        ("#235BAA" : String).data),
   (("secondary_color" : String).data,
      jsOrStrV (strField vars ("secondary_colour" : String).data)
        ("#FFFFFF" : String).data)]

/-! ## Frame compositor (`png-renderer`, `src/engine/font-manager.ts`
lines 42–354, and `src/utils/image.ts`)

The mutable canvas is modelled as the ordered log of operations the
renderer performs on it; `toBuffer` is the identity on that log. The
linear-gradient axis (`cos`/`sin` of the angle) is carried inside the
recorded operation rather than precomputed, since it is a fixed function
of the recorded angle, width and height. -/

/-- Decimal rendering of a natural number (JavaScript template-string
interpolation of an integer index). -/
def natToChars (n : ℕ) : Str :=
  if _h : n < 10 then [Nat.digitChar n]
  else natToChars (n / 10) ++ [Nat.digitChar (n % 10)]
termination_by n
decreasing_by exact Nat.div_lt_self (by omega) (by omega)

/-- Which image a draw call references. -/
inductive ImgRef
  | user (index : ℕ)
  | logo
deriving DecidableEq, Repr

/-- One canvas operation. -/
inductive CanvasOp
  | save
  | restore
  | setGlobalAlpha (a : ℚ)
  | setFillStyle (c : Str)
  | setStrokeStyle (c : Str)
  | setLineWidth (w : ℚ)
  | setFont (weight : Str) (size : ℚ) (family : Str)
  | setTextBaseline (b : Str)
  | setShadow (blur offsetX offsetY : ℚ) (color : Str)
  | fillRect (x y w h : ℚ)
  | strokeRect (x y w h : ℚ)
  | fillRoundedRect (x y w h r : ℚ)
  | strokeRoundedRect (x y w h r : ℚ)
  | clipRoundedRect (x y w h r : ℚ)
  | drawImageFull (img : ImgRef) (sx sy sw sh dx dy dw dh : ℚ)
  | drawImageScaled (img : ImgRef) (dx dy dw dh : ℚ)
  | fillGradientRect (angle : ℚ) (stops : List (ℚ × Str)) (x y w h : ℚ)
  | fillText (s : Str) (x y : ℚ)
deriving DecidableEq, Repr

/-- Whether an operation contributes pixels to the frame (as opposed to
pure state manipulation). -/
def CanvasOp.isPixel : CanvasOp → Bool
  | .fillRect _ _ _ _ => true
  | .strokeRect _ _ _ _ => true
  | .fillRoundedRect _ _ _ _ _ => true
  | .strokeRoundedRect _ _ _ _ _ => true
  | .drawImageFull _ _ _ _ _ _ _ _ _ => true
  | .drawImageScaled _ _ _ _ _ => true
  | .fillGradientRect _ _ _ _ _ _ => true
  | .fillText _ _ _ => true
  | _ => false

/-- An operation list that draws no pixels. -/
def pixelFree (ops : List CanvasOp) : Prop :=
  ∀ op ∈ ops, op.isPixel = false

/-- `drawImageCover` from `src/utils/image.ts`: optional rounded clip,
then crop the source about its centre along the axis where it
overshoots the box and fill the whole destination box. -/
def drawImageCover (ref : ImgRef) (img : ImageDim)
    (x y width height borderRadius : ℚ) : List CanvasOp :=
  [CanvasOp.save] ++
  (if 0 < borderRadius then
    [CanvasOp.clipRoundedRect x y width height borderRadius]
  else []) ++
  (if img.width / img.height > width / height then
    [CanvasOp.drawImageFull ref
      ((img.width - img.height * (width / height)) / 2) 0
      (img.height * (width / height)) img.height x y width height]
  else
    [CanvasOp.drawImageFull ref
      0 ((img.height - img.width / (width / height)) / 2)
      img.width (img.width / (width / height)) x y width height]) ++
  [CanvasOp.restore]

/-- `drawImageContain` from `src/utils/image.ts`: optional rounded clip,
then letterbox the full source centred inside the box. -/
def drawImageContain (ref : ImgRef) (img : ImageDim)
    (x y width height borderRadius : ℚ) : List CanvasOp :=
  [CanvasOp.save] ++
  (if 0 < borderRadius then
    [CanvasOp.clipRoundedRect x y width height borderRadius]
  else []) ++
  (if img.width / img.height > width / height then
    [CanvasOp.drawImageScaled ref x
      (y + (height - width / (img.width / img.height)) / 2) width
      (width / (img.width / img.height))]
  else
    [CanvasOp.drawImageScaled ref
      (x + (width - height * (img.width / img.height)) / 2) y
      (height * (img.width / img.height)) height]) ++
  [CanvasOp.restore]

/-- `drawBackground` (`png-renderer` lines 91–130): solid fill, linear
gradient with evenly distributed stops, or cover-fit of an indexed user
image — silently skipped when the index has no decoded image
(`if (img)`). -/
def drawBackground (bg : BackgroundDef) (w h : ℚ)
    (colorVars : List (Str × Str)) (userImages : List ImageDim) :
    List CanvasOp :=
  match bg with
  | .solid color =>
      [CanvasOp.setFillStyle (resolveColor color colorVars),
        CanvasOp.fillRect 0 0 w h]
  | .gradient colors angle =>
      [CanvasOp.fillGradientRect angle
        (colors.mapIdx (fun i c =>
          ((i : ℚ) / ((colors.length : ℚ) - 1),
            resolveColor c colorVars))) 0 0 w h]
  | .image index =>
      match userImages[index]? with
      | some img => drawImageCover (.user index) img 0 0 w h 0
      | none => []

/-- The `layer.borderRadius && layer.borderRadius > 0` test. -/
def brPos (br : Option ℚ) : Bool :=
  match br with
  | some r => decide (0 < r)
  | none => false

/-- `drawRect` (`png-renderer` lines 171–195). -/
def drawRect (l : LayerDef) (fill : Str) (stroke : Option StrokeDef)
    (colorVars : List (Str × Str)) : List CanvasOp :=
  [CanvasOp.setFillStyle (resolveColor fill colorVars)] ++
  (if brPos l.borderRadius then
    [CanvasOp.fillRoundedRect l.x l.y l.width l.height
      (l.borderRadius.getD 0)]
  else [CanvasOp.fillRect l.x l.y l.width l.height]) ++
  (match stroke with
   | some s =>
      [CanvasOp.setStrokeStyle (resolveColor s.color colorVars),
        CanvasOp.setLineWidth s.width] ++
      (if brPos l.borderRadius then
        [CanvasOp.strokeRoundedRect l.x l.y l.width l.height
          (l.borderRadius.getD 0)]
      else [CanvasOp.strokeRect l.x l.y l.width l.height])
   | none => [])

/-- `drawImage` (`png-renderer` lines 197–226): a missing user image at
the layer's index is logged and skipped; otherwise an optional scoped
shadow around a cover- or contain-fit draw. -/
def drawImage (l : LayerDef) (index : ℕ) (fit : Str)
    (shadow : Option ShadowDef) (userImages : List ImageDim) :
    List CanvasOp :=
  match userImages[index]? with
  | none => []
  | some img =>
      (match shadow with
       | some s => [CanvasOp.save,
          CanvasOp.setShadow s.blur s.offsetX s.offsetY s.color]
       | none => []) ++
      (if fit = ("cover" : String).data then
        drawImageCover (.user index) img l.x l.y l.width l.height
          (l.borderRadius.getD 0)
      else
        drawImageContain (.user index) img l.x l.y l.width l.height
          (l.borderRadius.getD 0)) ++
      (match shadow with
       | some _ => [CanvasOp.restore]
       | none => [])

/-- `WEIGHT_MAP` from `font-manager.ts`. -/
def WEIGHT_MAP : List (Str × Str) :=
  [(("regular" : String).data, ("normal" : String).data),
   (("medium" : String).data, ("500" : String).data),
   (("semibold" : String).data, ("600" : String).data),
   (("bold" : String).data, ("bold" : String).data)]

/-- `getFontString`'s weight resolution
(`WEIGHT_MAP[fontWeight] || fontWeight`); the font string's pieces are
carried structurally in the `setFont` operation. -/
def getFontWeight (w : Str) : Str :=
  jsOrStr (jsLookup WEIGHT_MAP w) w

/-- `drawTextWithSpacing` (`png-renderer` lines 282–294): draw glyph by
glyph, advancing by measured glyph width plus the spacing constant. -/
def drawTextWithSpacing (measure : Str → ℚ) :
    Str → ℚ → ℚ → ℚ → List CanvasOp
  | [], _, _, _ => []
  | ch :: restText, x, y, spacing =>
      CanvasOp.fillText [ch] x y ::
        drawTextWithSpacing measure restText (x + measure [ch] + spacing)
          y spacing

/-- The `letterSpacing` truthiness test (`if (layer.letterSpacing)`). -/
def lsTruthy (ls : Option ℚ) : Bool :=
  match ls with
  | some v => decide (v ≠ 0)
  | none => false

/-- `drawText` (`png-renderer` lines 228–280): resolve placeholders,
apply the case transform, bail out on empty text, set font/fill/baseline,
wrap, place vertically by alignment over the wrapped height, then draw
each line with horizontal alignment from its measured width, glyph by
glyph when letter spacing is set. -/
def drawText (measure : Str → ℚ) (l : LayerDef) (content fontFamily : Str)
    (fontSize : ℚ) (fontWeight color align : Str)
    (verticalAlign : Option Str) (maxLines : Option ℕ)
    (lineHeight : Option ℚ) (textTransform : Option String)
    (padding letterSpacing : Option ℚ) (vars : RenderVars)
    (colorVars : List (Str × Str)) : List CanvasOp :=
  let text := applyTextTransform textTransform
    (resolveVariables vars content)
  if text = [] then []
  else
    let pad := padding.getD 0
    let maxWidth := l.width - pad * 2
    let lineSpacing := fontSize *
      (match lineHeight with
       | some v => if v = 0 then 13 / 10 else v
       | none => 13 / 10)
    let lines := wrapText measure text maxWidth maxLines
    let totalTextHeight := (lines.length : ℚ) * lineSpacing
    let startY :=
      if verticalAlign = some ("middle" : String).data then
        l.y + (l.height - totalTextHeight) / 2
      else if verticalAlign = some ("bottom" : String).data then
        l.y + l.height - totalTextHeight - pad
      else l.y + pad
    [CanvasOp.setFont (getFontWeight fontWeight) fontSize fontFamily,
      CanvasOp.setFillStyle (resolveColor color colorVars),
      CanvasOp.setTextBaseline ("top" : String).data] ++
    (lines.enum.flatMap (fun p =>
      let lx :=
        if align = ("center" : String).data then
          l.x + (l.width - p.2.width) / 2
        else if align = ("right" : String).data then
          l.x + l.width - p.2.width - pad
        else l.x + pad
      if lsTruthy letterSpacing then
        drawTextWithSpacing measure p.2.text lx
          (startY + (p.1 : ℚ) * lineSpacing) (letterSpacing.getD 0)
      else
        [CanvasOp.fillText p.2.text lx
          (startY + (p.1 : ℚ) * lineSpacing)]))

/-- `drawLogo` (`png-renderer` lines 296–324): bail out when no logo
image is available; otherwise an optional literal background fill and a
padded cover- or contain-fit draw. -/
def drawLogo (l : LayerDef) (fit : Str) (padding : Option ℚ)
    (background : Option Str) (logoImage : Option ImageDim) :
    List CanvasOp :=
  match logoImage with
  | none => []
  | some img =>
      let pad := padding.getD 0
      (match background with
       | some bgc =>
          if bgc = [] then []
          else [CanvasOp.setFillStyle bgc,
            CanvasOp.fillRect l.x l.y l.width l.height]
       | none => []) ++
      (if fit = ("cover" : String).data then
        drawImageCover .logo img (l.x + pad) (l.y + pad)
          (l.width - pad * 2) (l.height - pad * 2) (l.borderRadius.getD 0)
      else
        drawImageContain .logo img (l.x + pad) (l.y + pad)
          (l.width - pad * 2) (l.height - pad * 2)
          (l.borderRadius.getD 0))

/-- `drawAccentBar` (`png-renderer` lines 326–333). -/
def drawAccentBar (l : LayerDef) (color : Str)
    (colorVars : List (Str × Str)) : List CanvasOp :=
  [CanvasOp.setFillStyle (resolveColor color colorVars),
    CanvasOp.fillRect l.x l.y l.width l.height]

/-- The `layer.opacity !== undefined && layer.opacity < 1` test. -/
def alphaScoped (o : Option ℚ) : Bool :=
  match o with
  | some v => decide (v < 1)
  | none => false

/-- `drawLayer` (`png-renderer` lines 134–169): optional scoped alpha
state around the variant dispatch; a `cta_image` layer matches no case of
this renderer's `switch` and draws nothing. -/
def drawLayer (measure : Str → ℚ) (l : LayerDef) (vars : RenderVars)
    (colorVars : List (Str × Str)) (userImages : List ImageDim)
    (logoImage : Option ImageDim) : List CanvasOp :=
  (if alphaScoped l.opacity then
    [CanvasOp.save, CanvasOp.setGlobalAlpha (l.opacity.getD 1)]
  else []) ++
  (match l.kind with
   | .rect fill stroke => drawRect l fill stroke colorVars
   | .image index fit shadow => drawImage l index fit shadow userImages
   | .text content fontFamily fontSize fontWeight color align
       verticalAlign maxLines lineHeight textTransform padding
       letterSpacing =>
      drawText measure l content fontFamily fontSize fontWeight color
        align verticalAlign maxLines lineHeight textTransform padding
        letterSpacing vars colorVars
   | .logo fit padding background =>
      drawLogo l fit padding background logoImage
   | .accentBar color => drawAccentBar l color colorVars
   | .ctaImage _ _ _ _ => []) ++
  (if alphaScoped l.opacity then [CanvasOp.restore] else [])

/-- `renderPng` (`png-renderer` lines 68–89): throw when the frame index
has no frame; otherwise paint the background and then every
non-hidden layer in order. The returned operation log is the model of
the produced raster. -/
def renderPng (measure : Str → ℚ) (tpl : TemplateDef) (vars : RenderVars)
    (userImages : List ImageDim) (logoImage : Option ImageDim)
    (frameIndex : ℕ) : Except Str (List CanvasOp) :=
  match tpl.frames[frameIndex]? with
  | none =>
      .error (("Frame " : String).data ++ natToChars frameIndex ++
        (" not found in template \"" : String).data ++ tpl.id ++
        [ '\"' ])
  | some frame =>
      .ok (drawBackground frame.background tpl.width tpl.height
          (buildColorVariables vars) userImages ++
        (frame.layers.filter
          (fun l => ¬ (l.visible = some false))).flatMap
          (fun l => drawLayer measure l vars (buildColorVariables vars)
            userImages logoImage))

theorem drawLayer_kind_image (measure : Str → ℚ) (l : LayerDef)
    (vars : RenderVars) (cv : List (Str × Str))
    (userImages : List ImageDim) (logoImage : Option ImageDim)
    (index : ℕ) (fit : Str) (shadow : Option ShadowDef)
    (hkind : l.kind = .image index fit shadow) :
    drawLayer measure l vars cv userImages logoImage =
      (if alphaScoped l.opacity then
        [CanvasOp.save, CanvasOp.setGlobalAlpha (l.opacity.getD 1)]
      else []) ++
      drawImage l index fit shadow userImages ++
      (if alphaScoped l.opacity then [CanvasOp.restore] else []) := by
  unfold drawLayer
  rw [hkind]

theorem drawLayer_kind_logo (measure : Str → ℚ) (l : LayerDef)
    (vars : RenderVars) (cv : List (Str × Str))
    (userImages : List ImageDim) (logoImage : Option ImageDim)
    (fit : Str) (padding : Option ℚ) (background : Option Str)
    (hkind : l.kind = .logo fit padding background) :
    drawLayer measure l vars cv userImages logoImage =
      (if alphaScoped l.opacity then
        [CanvasOp.save, CanvasOp.setGlobalAlpha (l.opacity.getD 1)]
      else []) ++
      drawLogo l fit padding background logoImage ++
      (if alphaScoped l.opacity then [CanvasOp.restore] else []) := by
  unfold drawLayer
  rw [hkind]

theorem pixelFree_alpha_wrapper (o : Option ℚ) :
    pixelFree ((if alphaScoped o then
        [CanvasOp.save, CanvasOp.setGlobalAlpha (o.getD 1)]
      else []) ++ [] ++
      (if alphaScoped o then [CanvasOp.restore] else [])) := by
  intro op hop
  by_cases h : alphaScoped o = true
  · simp [h] at hop
    rcases hop with rfl | rfl | rfl <;> rfl
  · simp [h] at hop

theorem drawBackground_image_missing (index : ℕ) (w h : ℚ)
    (cv : List (Str × Str)) (imgs : List ImageDim)
    (hnone : imgs[index]? = none) :
    drawBackground (.image index) w h cv imgs = [] := by
  simp only [drawBackground]
  rw [hnone]

/-- C7: rendering a frame at a valid index always succeeds — also when
an image layer's index has no decoded image, when the logo is absent,
and when the background's image index has no decoded image — producing
the background's operations followed by each non-hidden layer's
operations in paint order; a missing-image layer, a logo layer without a
logo, and a background without its image each contribute no pixel
operations, leaving the other layers' operations untouched. -/
theorem renderPng_missing_assets (measure : Str → ℚ) (tpl : TemplateDef)
    (vars : RenderVars) (userImages : List ImageDim)
    (logoImage : Option ImageDim) (frameIndex : ℕ)
    (hfi : frameIndex < tpl.frames.length) :
    renderPng measure tpl vars userImages logoImage frameIndex =
      .ok (drawBackground (tpl.frames[frameIndex]).background tpl.width
          tpl.height (buildColorVariables vars) userImages ++
        ((tpl.frames[frameIndex]).layers.filter
          (fun l => ¬ (l.visible = some false))).flatMap
          (fun l => drawLayer measure l vars (buildColorVariables vars)
            userImages logoImage)) ∧
    (∀ l ∈ (tpl.frames[frameIndex]).layers,
      ∀ (index : ℕ) (fit : Str) (shadow : Option ShadowDef),
      l.kind = .image index fit shadow → userImages.length ≤ index →
      pixelFree (drawLayer measure l vars (buildColorVariables vars)
        userImages logoImage)) ∧
    (logoImage = none → ∀ l ∈ (tpl.frames[frameIndex]).layers,
      ∀ (fit : Str) (padding : Option ℚ) (background : Option Str),
      l.kind = .logo fit padding background →
      pixelFree (drawLayer measure l vars (buildColorVariables vars)
        userImages logoImage)) ∧
    (∀ index : ℕ, (tpl.frames[frameIndex]).background = .image index →
      userImages.length ≤ index →
      drawBackground (tpl.frames[frameIndex]).background tpl.width
        tpl.height (buildColorVariables vars) userImages = []) := by
  refine ⟨?_, ?_, ?_, ?_⟩
  · unfold renderPng
    rw [List.getElem?_eq_getElem hfi]
  · intro l _ index fit shadow hkind hlen
    rw [drawLayer_kind_image measure l vars (buildColorVariables vars)
      userImages logoImage index fit shadow hkind]
    have himg : drawImage l index fit shadow userImages = [] := by
      unfold drawImage
      rw [List.getElem?_eq_none hlen]
    rw [himg]
    exact pixelFree_alpha_wrapper l.opacity
  · intro hlogo l _ fit padding background hkind
    rw [drawLayer_kind_logo measure l vars (buildColorVariables vars)
      userImages logoImage fit padding background hkind]
    have hlg : drawLogo l fit padding background logoImage = [] := by
      unfold drawLogo
      rw [hlogo]
    rw [hlg]
    exact pixelFree_alpha_wrapper l.opacity
  · intro index hbg hlen
    rw [hbg, drawBackground_image_missing index tpl.width tpl.height _ _
      (List.getElem?_eq_none hlen)]

/-- Rational character-count width, the concrete measure used by
compositor witnesses. -/
def intQLen (s : Str) : ℚ := s.length

/-- The C7 witness frame: one image layer whose index 5 has no decoded
image, an ordinary rect layer, and a logo layer, over an image background
whose index 7 is also missing. -/
def frameW : FrameDef :=
  ⟨none, .image 7,
    [⟨0, 0, 10, 10, none, none, none,
        .image 5 ("cover" : String).data none⟩,
     ⟨0, 0, 10, 10, none, none, none,
        .rect ("#fff" : String).data none⟩,
     ⟨0, 0, 10, 10, none, none, none,
        .logo ("contain" : String).data none none⟩]⟩

/-- The C7 witness template. -/
def tplW : TemplateDef :=
  ⟨['t'], 100, 100, none, [frameW], none⟩

/-- C7 witness: the missing-asset behaviour evaluated at a concrete
frame with no decoded images and no logo. -/
theorem renderPng_missing_assets_witness :
    renderPng intQLen tplW [] [] none 0 =
      .ok (drawBackground frameW.background tplW.width tplW.height
          (buildColorVariables []) [] ++
        (frameW.layers.filter
          (fun l => ¬ (l.visible = some false))).flatMap
          (fun l => drawLayer intQLen l [] (buildColorVariables [])
            [] none)) ∧
    (∀ l ∈ frameW.layers,
      ∀ (index : ℕ) (fit : Str) (shadow : Option ShadowDef),
      l.kind = .image index fit shadow → List.length ([] : List ImageDim) ≤ index →
      pixelFree (drawLayer intQLen l [] (buildColorVariables []) []
        none)) ∧
    ((none : Option ImageDim) = none → ∀ l ∈ frameW.layers,
      ∀ (fit : Str) (padding : Option ℚ) (background : Option Str),
      l.kind = .logo fit padding background →
      pixelFree (drawLayer intQLen l [] (buildColorVariables []) []
        none)) ∧
    (∀ index : ℕ, frameW.background = .image index →
      List.length ([] : List ImageDim) ≤ index →
      drawBackground frameW.background tplW.width tplW.height
        (buildColorVariables []) [] = []) :=
  renderPng_missing_assets intQLen tplW [] [] none 0 (by decide)

/-! ## Video assembler (`mp4-renderer`, `src/engine/asset-loader.ts`
lines 117–299) -/

/-- JavaScript `x || d` for a possibly-absent number: `0` is falsy
(`NaN` is not modelled). -/
def jsOrQ (x : Option ℚ) (d : ℚ) : ℚ :=
  match x with
  | some v => if v = 0 then d else v
  | none => d

/-- `template.frames.map(f => (f.durationMs || 3000) / 1000)`. -/
def frameDurationsSec (tpl : TemplateDef) : List ℚ :=
  tpl.frames.map (fun f => jsOrQ f.durationMs 3000 / 1000)

/-- `(template.transition?.durationMs || 800) / 1000`. -/
def transitionDurationSec (tpl : TemplateDef) : ℚ :=
  jsOrQ (tpl.transition.map (fun t => t.durationMs)) 800 / 1000

/-- `template.transition?.type || 'fade'`. -/
def transitionTypeOf (tpl : TemplateDef) : Str :=
  jsOrStr (tpl.transition.map (fun t => t.type)) ("fade" : String).data

/-- `template.fps || 30`. -/
def fpsOf (tpl : TemplateDef) : ℚ :=
  jsOrQ tpl.fps 30

/-- The transition-name map of `mapTransitionType`. -/
def TRANSITION_MAP : List (Str × Str) :=
  [(("fade" : String).data, ("fade" : String).data),
   (("crossfade" : String).data, ("fade" : String).data),
   (("slide_left" : String).data, ("slideleft" : String).data),
   (("slide_right" : String).data, ("slideright" : String).data),
   (("zoom" : String).data, ("smoothup" : String).data)]

/-- `mapTransitionType` (`map[type] || 'fade'`). -/
def mapTransitionType (type : Str) : Str :=
  jsOrStr (jsLookup TRANSITION_MAP type) ("fade" : String).data

/-- The label `[i:v]` of raw input frame `i`. -/
def rawFrameLabel (i : ℕ) : Str :=
  ['['] ++ natToChars i ++ [':', 'v', ']']

/-- The label `[vi]` of chained stage output `i`. -/
def chainLabel (i : ℕ) : Str :=
  ['[', 'v'] ++ natToChars i ++ [']']

/-- The final output label `[v]`. -/
def finalLabel : Str := ['[', 'v', ']']

/-- One `xfade` filter stage, carrying the pieces interpolated into the
filter string
`inputA inputB xfade=transition=T:duration=D:offset=O(,format=yuv420p) out`. -/
structure XfadeStage where
  inputA : Str
  inputB : Str
  outputLabel : Str
  transitionType : Str
  duration : ℚ
  offset : ℚ
  formatSuffix : Bool
deriving DecidableEq, Repr

/-- The `for (let i = 0; i < n - 1; i++)` chain-building loop of
`buildMp4WithXfade` with its running `cumulativeOffset` accumulator. -/
def xfadeLoop (ds : List ℚ) (t : ℚ) (ttype : Str) (n : ℕ) :
    ℕ → ℚ → List XfadeStage :=
  fun i acc =>
    if _h : i < n - 1 then
      let acc' := if i = 0 then ds.getD 0 0 - t else acc + ds.getD i 0 - t
      ⟨if i = 0 then rawFrameLabel 0 else chainLabel i,
        rawFrameLabel (i + 1),
        if i = n - 2 then finalLabel else chainLabel (i + 1),
        ttype, t, acc', decide (i = n - 2)⟩ ::
        xfadeLoop ds t ttype n (i + 1) acc'
    else []
termination_by i _ => n - 1 - i

/-- The filter-graph construction of `buildMp4WithXfade`
(`src/engine/asset-loader.ts` lines 251–281): a single stage for two
frames, otherwise the chained loop; the last stage carries the
`format=yuv420p` suffix. -/
def buildXfadeFilterParts (ds : List ℚ) (t : ℚ) (ttype : Str) :
    List XfadeStage :=
  if ds.length = 2 then
    [⟨rawFrameLabel 0, rawFrameLabel 1, finalLabel, ttype, t,
      ds.getD 0 0 - t, true⟩]
  else
    xfadeLoop ds t ttype ds.length 0 0

/-- The stage the claim describes (its words, for comparison with the
built chain): stage `k` of `n` frames consumes the previous stage's
output (frame 0 for the first), the raw frame `k+1`, writes the final
label (format-normalized) on the last stage, and fires at the cumulative
hold time minus `(k+1)` transition durations. -/
def xfadeStageSpec (ds : List ℚ) (t : ℚ) (ttype : Str) (n k : ℕ) :
    XfadeStage :=
  ⟨if k = 0 then rawFrameLabel 0 else chainLabel k,
    rawFrameLabel (k + 1),
    if k = n - 2 then finalLabel else chainLabel (k + 1),
    ttype, t, (ds.take (k + 1)).sum - (k + 1) * t, decide (k = n - 2)⟩

theorem xfadeLoop_eq_spec (ds : List ℚ) (t : ℚ) (ttype : Str) (n : ℕ)
    (hn : n = ds.length) :
    ∀ (m i : ℕ) (acc : ℚ), i + m = n - 1 →
      (i = 0 ∨ acc = (ds.take i).sum - i * t) →
      xfadeLoop ds t ttype n i acc =
        (List.range m).map (fun j => xfadeStageSpec ds t ttype n (i + j))
    := by
  intro m
  induction m with
  | zero =>
      intro i acc hi _
      rw [xfadeLoop]
      rw [dif_neg (by omega)]
      rfl
  | succ m ih =>
      intro i acc hi hacc
      have hilt : i < n - 1 := by omega
      have hids : i < ds.length := by omega
      have hacc' : (if i = 0 then ds.getD 0 0 - t
          else acc + ds.getD i 0 - t) =
          (ds.take (i + 1)).sum - ((i + 1 : ℕ) : ℚ) * t := by
        have hsum : (ds.take (i + 1)).sum = (ds.take i).sum + ds[i] :=
          List.sum_take_succ ds i hids
        have hget : ds.getD i 0 = ds[i] := List.getD_eq_getElem ds 0 hids
        by_cases h0 : i = 0
        · subst h0
          have hget0 : ds.getD 0 0 = ds[0] := hget
          rw [if_pos rfl, hget0, hsum]
          push_cast
          simp only [List.take_zero, List.sum_nil]
          ring
        · rcases hacc with h | h
          · exact absurd h h0
          · rw [if_neg h0, h, hget, hsum]
            push_cast
            ring
      rw [xfadeLoop]
      rw [dif_pos hilt]
      simp only [hacc']
      rw [ih (i + 1) _ (by omega) (Or.inr rfl)]
      rw [List.range_succ_eq_map, List.map_cons, List.map_map]
      congr 1
      · simp [xfadeStageSpec]
      · apply List.map_congr_left
        intro j _
        show xfadeStageSpec ds t ttype n (i + 1 + j) =
          xfadeStageSpec ds t ttype n (i + (j + 1))
        congr 1
        omega

theorem buildXfadeFilterParts_eq_spec (ds : List ℚ) (t : ℚ) (ttype : Str)
    (h2 : 2 ≤ ds.length) :
    buildXfadeFilterParts ds t ttype = (List.range (ds.length - 1)).map
      (fun k => xfadeStageSpec ds t ttype ds.length k) := by
  unfold buildXfadeFilterParts
  by_cases hn2 : ds.length = 2
  · rw [if_pos hn2, hn2]
    obtain ⟨d0, d1, hds⟩ : ∃ d0 d1, ds = [d0, d1] := by
      cases ds with
      | nil => simp at hn2
      | cons a l =>
          cases l with
          | nil => simp at hn2
          | cons b l2 =>
              cases l2 with
              | nil => exact ⟨a, b, rfl⟩
              | cons c l3 => simp at hn2
    subst hds
    unfold xfadeStageSpec
    norm_num [List.range_succ]
  · rw [if_neg hn2]
    rw [xfadeLoop_eq_spec ds t ttype ds.length rfl (ds.length - 1) 0 0
      (by omega) (Or.inl rfl)]
    apply List.map_congr_left
    intro j _
    norm_num

/-- C4: for a template with `N ≥ 2` frames, hold durations from the
per-frame override or the 3000 ms default, and transition duration from
the template override or the 800 ms default, the constructed filter
graph has exactly `N − 1` chained stages; stage `i` consumes the
previous stage's output label (raw frame 0 for the first) and raw frame
`i + 1`; its time offset is the sum of hold durations `d_0 … d_i` minus
`(i+1)` transition durations; exactly the final stage carries the
pixel-format normalization; and the `N = 2` special case is the `i = 0`
instance of the same formula. -/
theorem buildMp4WithXfade_filter_spec (tpl : TemplateDef)
    (h2 : 2 ≤ tpl.frames.length) :
    (buildXfadeFilterParts (frameDurationsSec tpl)
        (transitionDurationSec tpl)
        (mapTransitionType (transitionTypeOf tpl))).length =
      tpl.frames.length - 1 ∧
    (∀ i, i < tpl.frames.length - 1 →
      (buildXfadeFilterParts (frameDurationsSec tpl)
        (transitionDurationSec tpl)
        (mapTransitionType (transitionTypeOf tpl))).getD i
          ⟨[], [], [], [], 0, 0, false⟩ =
        xfadeStageSpec (frameDurationsSec tpl) (transitionDurationSec tpl)
          (mapTransitionType (transitionTypeOf tpl))
          tpl.frames.length i) ∧
    (∀ i, i < tpl.frames.length - 1 →
      ((buildXfadeFilterParts (frameDurationsSec tpl)
        (transitionDurationSec tpl)
        (mapTransitionType (transitionTypeOf tpl))).getD i
          ⟨[], [], [], [], 0, 0, false⟩).inputA =
        if i = 0 then rawFrameLabel 0 else
          ((buildXfadeFilterParts (frameDurationsSec tpl)
            (transitionDurationSec tpl)
            (mapTransitionType (transitionTypeOf tpl))).getD (i - 1)
              ⟨[], [], [], [], 0, 0, false⟩).outputLabel) ∧
    (∀ i, i < tpl.frames.length - 1 →
      ((buildXfadeFilterParts (frameDurationsSec tpl)
        (transitionDurationSec tpl)
        (mapTransitionType (transitionTypeOf tpl))).getD i
          ⟨[], [], [], [], 0, 0, false⟩).inputB = rawFrameLabel (i + 1)) ∧
    (∀ i, i < tpl.frames.length - 1 →
      ((buildXfadeFilterParts (frameDurationsSec tpl)
        (transitionDurationSec tpl)
        (mapTransitionType (transitionTypeOf tpl))).getD i
          ⟨[], [], [], [], 0, 0, false⟩).offset =
        ((frameDurationsSec tpl).take (i + 1)).sum -
          (i + 1) * transitionDurationSec tpl) ∧
    (∀ i, i < tpl.frames.length - 1 →
      (((buildXfadeFilterParts (frameDurationsSec tpl)
        (transitionDurationSec tpl)
        (mapTransitionType (transitionTypeOf tpl))).getD i
          ⟨[], [], [], [], 0, 0, false⟩).formatSuffix = true ↔
        i = tpl.frames.length - 2)) := by
  have hlen : (frameDurationsSec tpl).length = tpl.frames.length := by
    unfold frameDurationsSec
    exact List.length_map _ _
  have hspec := buildXfadeFilterParts_eq_spec (frameDurationsSec tpl)
    (transitionDurationSec tpl) (mapTransitionType (transitionTypeOf tpl))
    (by omega)
  have hgetD : ∀ i, i < tpl.frames.length - 1 →
      (buildXfadeFilterParts (frameDurationsSec tpl)
        (transitionDurationSec tpl)
        (mapTransitionType (transitionTypeOf tpl))).getD i
          ⟨[], [], [], [], 0, 0, false⟩ =
        xfadeStageSpec (frameDurationsSec tpl) (transitionDurationSec tpl)
          (mapTransitionType (transitionTypeOf tpl))
          tpl.frames.length i := by
    intro i hi
    rw [hspec]
    have hil : i < ((List.range ((frameDurationsSec tpl).length - 1)).map
        (fun k => xfadeStageSpec (frameDurationsSec tpl)
          (transitionDurationSec tpl)
          (mapTransitionType (transitionTypeOf tpl))
          (frameDurationsSec tpl).length k)).length := by
      rw [List.length_map, List.length_range, hlen]
      omega
    rw [List.getD_eq_getElem _ _ hil]
    simp only [List.getElem_map, List.getElem_range]
    rw [hlen]
  refine ⟨?_, hgetD, ?_, ?_, ?_, ?_⟩
  · rw [hspec]
    simp [hlen]
  · intro i hi
    rw [hgetD i hi]
    by_cases h0 : i = 0
    · subst h0
      rw [if_pos rfl]
      rfl
    · rw [if_neg h0]
      rw [hgetD (i - 1) (by omega)]
      unfold xfadeStageSpec
      have hne : ¬ (i - 1 = tpl.frames.length - 2) := by omega
      simp only [if_neg hne]
      have : i - 1 + 1 = i := by omega
      rw [this, if_neg h0]
  · intro i hi
    rw [hgetD i hi]
    rfl
  · intro i hi
    rw [hgetD i hi]
    rfl
  · intro i hi
    rw [hgetD i hi]
    unfold xfadeStageSpec
    simp

/-- C4 witness: the filter-graph contract at a concrete three-frame
template with integer-second holds and the default transition. -/
theorem buildMp4WithXfade_filter_spec_witness :
    (2 ≤ (⟨['t'], 100, 100, none,
        [⟨some 2000, .solid ['#'], []⟩, ⟨some 3000, .solid ['#'], []⟩,
          ⟨none, .solid ['#'], []⟩], none⟩ : TemplateDef).frames.length) ∧
    ((buildXfadeFilterParts (frameDurationsSec
        (⟨['t'], 100, 100, none,
          [⟨some 2000, .solid ['#'], []⟩, ⟨some 3000, .solid ['#'], []⟩,
            ⟨none, .solid ['#'], []⟩], none⟩ : TemplateDef))
        (transitionDurationSec
        (⟨['t'], 100, 100, none,
          [⟨some 2000, .solid ['#'], []⟩, ⟨some 3000, .solid ['#'], []⟩,
            ⟨none, .solid ['#'], []⟩], none⟩ : TemplateDef))
        (mapTransitionType (transitionTypeOf
        (⟨['t'], 100, 100, none,
          [⟨some 2000, .solid ['#'], []⟩, ⟨some 3000, .solid ['#'], []⟩,
            ⟨none, .solid ['#'], []⟩], none⟩ : TemplateDef)))).length =
      (⟨['t'], 100, 100, none,
        [⟨some 2000, .solid ['#'], []⟩, ⟨some 3000, .solid ['#'], []⟩,
          ⟨none, .solid ['#'], []⟩], none⟩ : TemplateDef).frames.length
        - 1) :=
  ⟨by decide,
    (buildMp4WithXfade_filter_spec
      ⟨['t'], 100, 100, none,
        [⟨some 2000, .solid ['#'], []⟩, ⟨some 3000, .solid ['#'], []⟩,
          ⟨none, .solid ['#'], []⟩], none⟩ (by decide)).1⟩

/-- An observable effect of `renderMp4`. -/
inductive Mp4Effect
  | mkTempDir
  | writeFrame (i : ℕ)
  | invokeEncoder (parts : List XfadeStage) (fps : ℚ)
  | cleanup
deriving DecidableEq, Repr

/-- The frame-rendering loop of `renderMp4`: render frames `0 … k−1`
through `renderPng`, writing each to the temp dir; a `renderPng` throw
aborts the loop carrying the error. -/
def renderFrames (measure : Str → ℚ) (tpl : TemplateDef)
    (vars : RenderVars) (userImages : List ImageDim)
    (logoImage : Option ImageDim) : ℕ → List Mp4Effect × Option Str
  | 0 => ([], none)
  | k + 1 =>
      match renderFrames measure tpl vars userImages logoImage k with
      | (effects, some e) => (effects, some e)
      | (effects, none) =>
          match renderPng measure tpl vars userImages logoImage k with
          | .ok _ => (effects ++ [.writeFrame k], none)
          | .error e => (effects, some e)

/-- `renderMp4` (`src/engine/asset-loader.ts` lines 142–199), as its
sequence of observable effects plus outcome: the `< 2` frame-count
precondition throws before anything else happens; otherwise the temp dir
is created, every frame rendered and written, the encoder invoked with
the constructed crossfade filter graph (its failure — the external
process being abstracted as `encoderError` — wrapped as
`FFmpeg error: …`), and the temp dir removed on success and failure
alike (`finally`). -/
def renderMp4 (measure : Str → ℚ) (tpl : TemplateDef) (vars : RenderVars)
    (userImages : List ImageDim) (logoImage : Option ImageDim)
    (encoderError : Option Str) : List Mp4Effect × Except Str Unit :=
  if tpl.frames.length < 2 then
    ([], .error ("MP4 templates require at least 2 frames" : String).data)
  else
    match renderFrames measure tpl vars userImages logoImage
        tpl.frames.length with
    | (effects, some e) =>
        (Mp4Effect.mkTempDir :: effects ++ [Mp4Effect.cleanup], .error e)
    | (effects, none) =>
        match encoderError with
        | some e =>
            (Mp4Effect.mkTempDir :: effects ++
              [Mp4Effect.invokeEncoder
                (buildXfadeFilterParts (frameDurationsSec tpl)
                  (transitionDurationSec tpl)
                  (mapTransitionType (transitionTypeOf tpl)))
                (fpsOf tpl),
                Mp4Effect.cleanup],
              .error (("FFmpeg error: " : String).data ++ e))
        | none =>
            (Mp4Effect.mkTempDir :: effects ++
              [Mp4Effect.invokeEncoder
                (buildXfadeFilterParts (frameDurationsSec tpl)
                  (transitionDurationSec tpl)
                  (mapTransitionType (transitionTypeOf tpl)))
                (fpsOf tpl),
                Mp4Effect.cleanup],
              .ok ())

/-- C9: a template with fewer than 2 frames makes `renderMp4` fail with
the precondition error before any frame render, temp-dir creation or
encoder invocation (its effect list is empty); with at least 2 frames
the precondition passes and the pipeline proceeds (the effect list
starts with the temp-dir creation). -/
theorem renderMp4_requires_two_frames (measure : Str → ℚ)
    (tpl : TemplateDef) (vars : RenderVars) (userImages : List ImageDim)
    (logoImage : Option ImageDim) (encoderError : Option Str) :
    (tpl.frames.length < 2 →
      renderMp4 measure tpl vars userImages logoImage encoderError =
        ([], .error
          ("MP4 templates require at least 2 frames" : String).data)) ∧
    (2 ≤ tpl.frames.length →
      ∃ effects outcome,
        renderMp4 measure tpl vars userImages logoImage encoderError =
          (Mp4Effect.mkTempDir :: effects, outcome)) := by
  constructor
  · intro h
    unfold renderMp4
    rw [if_pos h]
  · intro h
    unfold renderMp4
    rw [if_neg (by omega)]
    rcases renderFrames measure tpl vars userImages logoImage
        tpl.frames.length with ⟨effects, oe⟩
    cases oe with
    | some e => exact ⟨effects ++ [Mp4Effect.cleanup], .error e, rfl⟩
    | none =>
        cases encoderError with
        | some e =>
            exact ⟨effects ++
              [Mp4Effect.invokeEncoder
                (buildXfadeFilterParts (frameDurationsSec tpl)
                  (transitionDurationSec tpl)
                  (mapTransitionType (transitionTypeOf tpl)))
                (fpsOf tpl),
                Mp4Effect.cleanup],
              .error (("FFmpeg error: " : String).data ++ e), rfl⟩
        | none =>
            exact ⟨effects ++
              [Mp4Effect.invokeEncoder
                (buildXfadeFilterParts (frameDurationsSec tpl)
                  (transitionDurationSec tpl)
                  (mapTransitionType (transitionTypeOf tpl)))
                (fpsOf tpl),
                Mp4Effect.cleanup],
              .ok (), rfl⟩

/-- C9 witness: a one-frame template is rejected with no effects; a
two-frame template passes the precondition. -/
theorem renderMp4_requires_two_frames_witness :
    (renderMp4 intQLen
        (⟨['t'], 100, 100, none, [⟨none, .solid ['#'], []⟩], none⟩ :
          TemplateDef) [] [] none none =
      ([], .error
        ("MP4 templates require at least 2 frames" : String).data)) ∧
    (∃ effects outcome,
      renderMp4 intQLen
        (⟨['t'], 100, 100, none,
          [⟨none, .solid ['#'], []⟩, ⟨none, .solid ['#'], []⟩], none⟩ :
          TemplateDef) [] [] none none =
        (Mp4Effect.mkTempDir :: effects, outcome)) :=
  ⟨(renderMp4_requires_two_frames intQLen
      ⟨['t'], 100, 100, none, [⟨none, .solid ['#'], []⟩], none⟩
      [] [] none none).1 (by decide),
    (renderMp4_requires_two_frames intQLen
      ⟨['t'], 100, 100, none,
        [⟨none, .solid ['#'], []⟩, ⟨none, .solid ['#'], []⟩], none⟩
      [] [] none none).2 (by decide)⟩

end RenderEngine
